import Mathlib

/-!
Verification development for the Satisfactory factory planner
(`src/App.tsx`, v3.1 component, plus `src/data/constants.ts`).

The planner's core is shallowly embedded here:

* JavaScript numbers are modelled as rationals (`ℚ`); all rates and
  coordinates in the source are exact decimal arithmetic in the claims.
* `Math.random()`-generated identifiers are modelled by a deterministic
  fresh-identifier counter threaded through the entity-creating functions
  (only identity/uniqueness of the identifiers is observable).
* Mutable JavaScript state (obstacle arrays, junction `Map`s, bus memo) is
  threaded explicitly through folds.
* The unbounded recursion of `buildChain` and the unbounded `while` loop of
  the A* router are given an explicit fuel parameter; running out of fuel is
  a distinguished `none` outcome.
-/

/- The Batteries rational-number operations are `@[irreducible]`, which
blocks `decide`-based evaluation of the embedded planner on concrete
inputs; restore the default reducibility (soundness is unaffected — this is
an elaboration hint only). -/
set_option allowUnsafeReducibility true in
attribute [semireducible] Rat.mul Rat.add Rat.inv Rat.sub Rat.div

namespace Planner

/-- Building kinds from `BuildingId` in the source (the `"belt"` entity type
is never created by the planner paths modelled here). `constructorB` stands
for the source's `"constructor"`. -/
inductive BuildingId where
  | smelter | constructorB | assembler | manufacturer | splitter | merger
deriving DecidableEq

/-- The four orthogonal rotations of `PlacedEntity.rotation`. -/
inductive Rot where
  | r0 | r90 | r180 | r270
deriving DecidableEq

structure Ingredient where
  name : String
  rate : ℚ
deriving DecidableEq

structure ProductSpec where
  name : String
  rate : ℚ
deriving DecidableEq

/-- `Recipe` from the source; the optional `alt?: boolean` is modelled as a
`Bool` (`undefined` coerces to `false` under `!!r.alt`). -/
structure Recipe where
  id : String
  product : ProductSpec
  inputs : List Ingredient
  building : BuildingId
  alt : Bool
deriving DecidableEq

/-- The demand-tree `Node` of the source. An input slot is
`(name, rate, from?)`; `from?` is the child node when the input is
craftable. -/
inductive Node where
  | mk (name recipeId : String) (building : BuildingId)
      (outputRate machines : ℚ)
      (inputs : List (String × ℚ × Option Node)) : Node

def Node.name : Node → String
  | .mk n _ _ _ _ _ => n

def Node.recipeId : Node → String
  | .mk _ r _ _ _ _ => r

def Node.building : Node → BuildingId
  | .mk _ _ b _ _ _ => b

def Node.outputRate : Node → ℚ
  | .mk _ _ _ r _ _ => r

def Node.machines : Node → ℚ
  | .mk _ _ _ _ m _ => m

def Node.inputs : Node → List (String × ℚ × Option Node)
  | .mk _ _ _ _ _ i => i

/-- `BELT_SPEEDS` from `src/data/constants.ts`. -/
def BELT_SPEEDS : List ℚ := [60, 120, 270, 480, 780]

structure BuildingSpec where
  w : ℚ
  h : ℚ
  inputs : ℕ
  outputs : ℕ
deriving DecidableEq

/-- The `BUILDINGS` table (name strings omitted; only dimensions and port
counts are read by the modelled code). -/
def BUILDINGS : BuildingId → BuildingSpec
  | .smelter      => ⟨6, 9, 1, 1⟩
  | .constructorB => ⟨8, 10, 1, 1⟩
  | .assembler    => ⟨10, 15, 2, 1⟩
  | .manufacturer => ⟨18, 20, 4, 1⟩
  | .splitter     => ⟨4, 4, 1, 3⟩
  | .merger       => ⟨4, 4, 3, 1⟩

def FOUNDATION_M : ℚ := 8
def CLEARANCE_M : ℚ := 6/10
def ENTITY_PADDING_M : ℚ := 4/10
def BELT_THICKNESS_M : ℚ := 3/10
def START_END_FREE_RADIUS : ℚ := 1
def BUS_SPACING : ℚ := 8
def BUS_MARGIN : ℚ := 1/2

/-! ## RecipeCatalog -/

/-- `Array.prototype.findIndex` (`none` for the source's `-1`). -/
def findIndexP {α : Type} (p : α → Bool) : List α → Option ℕ
  | [] => none
  | a :: as => if p a then some 0 else (findIndexP p as).map (· + 1)

/-- `findRecipeByProduct` from the source: filter candidates producing
`productName`; `preferAltLocal ? (alt || std || candidates[0])
: (std || alt || candidates[0])`. -/
def findRecipeByProduct (recipes : List Recipe) (productName : String)
    (preferAltLocal : Bool) : Option Recipe :=
  let candidates := recipes.filter (fun r => r.product.name == productName)
  match candidates with
  | [] => none
  | c :: _ =>
    let std := candidates.find? (fun r => !r.alt)
    let alt := candidates.find? (fun r => r.alt)
    some (if preferAltLocal then alt.getD (std.getD c) else std.getD (alt.getD c))

/-- The second `map` over `node.inputs` in `buildChain`, parameterized by
the recursive call `build` (the chain builder at the decremented fuel):
recurse only if the input itself has a recipe (`child || undefined` keeps
`from` unset when the recursion returned `null`). A `none` from `build`
(fuel exhaustion) aborts the whole traversal. -/
def buildSlots (recipes : List Recipe) (preferAlt : Bool)
    (build : String → ℚ → Option (Option Node)) :
    List (String × ℚ) → Option (List (String × ℚ × Option Node))
  | [] => some []
  | (nm, rt) :: rest =>
    let slot : Option (String × ℚ × Option Node) :=
      match findRecipeByProduct recipes nm preferAlt with
      | some _ =>
        match build nm rt with
        | none => none
        | some child => some (nm, rt, child)
      | none => some (nm, rt, none)
    match slot with
    | none => none
    | some s =>
      match buildSlots recipes preferAlt build rest with
      | none => none
      | some ss => some (s :: ss)

/-- `buildChain` from the source, with fuel. Result: `none` = fuel
exhausted (the JavaScript recursion would still be running); `some none` =
the source's `null` (no recipe for the root item); `some (some node)` = the
built demand node. -/
def buildChainF (recipes : List Recipe) (preferAlt : Bool) :
    ℕ → String → ℚ → Option (Option Node)
  | 0, _, _ => none
  | fuel + 1, productName, rate =>
    match findRecipeByProduct recipes productName preferAlt with
    | none => some none
    | some r =>
      let machines := rate / r.product.rate
      let inputs0 := r.inputs.map (fun inp => (inp.name, rate * inp.rate / r.product.rate))
      match buildSlots recipes preferAlt (buildChainF recipes preferAlt fuel) inputs0 with
      | none => none
      | some inputs =>
        some (some (Node.mk r.product.name r.id r.building rate machines inputs))

/-- `minBeltMkFor` from the source: smallest index with `rate <= cap`,
mapping the `-1` overflow case to Mk5. -/
def minBeltMkFor (rate : ℚ) : ℕ :=
  match findIndexP (fun cap => rate ≤ cap) BELT_SPEEDS with
  | none => 5
  | some idx => idx + 1

/-- Capacity of tier `n` (1-based), `0` outside the table. -/
def beltCap (n : ℕ) : ℚ := BELT_SPEEDS.getD (n - 1) 0

/-! ## Entities, collision and placement utilities -/

/-- The `meta` payload `{ w, h, node? }`. Every entity created by the
modelled code paths carries `w` and `h` (the `?? 2` defaults of the source
never fire on them). -/
structure Meta where
  w : ℚ
  h : ℚ
  node : Option Node

/-- `PlacedEntity`; the random string id is modelled as a `ℕ` drawn from a
fresh counter. -/
structure PlacedEntity where
  id : ℕ
  type : BuildingId
  x : ℚ
  y : ℚ
  rotation : Rot
  meta : Meta

structure Rect where
  x : ℚ
  y : ℚ
  w : ℚ
  h : ℚ
deriving DecidableEq

def rectOfEntity (e : PlacedEntity) : Rect :=
  ⟨e.x, e.y, e.meta.w, e.meta.h⟩

def expandRect (r : Rect) (m : ℚ) : Rect :=
  ⟨r.x - m, r.y - m, r.w + 2 * m, r.h + 2 * m⟩

/-- `intersects` (closed-interval touching does not count, as in the
source's `<=` disjunction). -/
def intersectsB (a b : Rect) : Bool :=
  !(decide (a.x + a.w ≤ b.x) || decide (b.x + b.w ≤ a.x) ||
    decide (a.y + a.h ≤ b.y) || decide (b.y + b.h ≤ a.y))

def collidesAnyB (r : Rect) (obs : List PlacedEntity) : Bool :=
  let rr := expandRect r ENTITY_PADDING_M
  obs.any (fun o => intersectsB rr (rectOfEntity o))

/-- JavaScript `Math.round` (half-up, also for negatives). -/
def jsRound (q : ℚ) : ℤ := ⌊q + 1/2⌋

/-- `snapToGrid` with grid step `g` (the UI offers 1/2/4/8 m). -/
def snapToGrid (g : ℕ) (m : ℚ) : ℚ := (jsRound (m / g) : ℚ) * g

/-- The eight ring candidates probed at radius `r` in
`findFreePositionNear`. -/
def ringCandidates (x y r : ℚ) : List (ℚ × ℚ) :=
  [(x, y + r), (x, y - r), (x + r, y), (x - r, y),
   (x + r, y + r), (x - r, y + r), (x + r, y - r), (x - r, y - r)]

/-- The search loop of `findFreePositionNear` over the given radii; returns
the first snapped candidate whose padded rectangle is collision-free. -/
def searchRing (g : ℕ) (x y w h : ℚ) (obs : List PlacedEntity) :
    List ℚ → Option (ℚ × ℚ)
  | [] => none
  | r :: rest =>
    match (ringCandidates x y r).find?
        (fun c => !collidesAnyB ⟨snapToGrid g c.1, snapToGrid g c.2, w, h⟩ obs) with
    | some c => some (snapToGrid g c.1, snapToGrid g c.2)
    | none => searchRing g x y w h obs rest

/-- `findFreePositionNear` with the fallback made observable: `none` means
the bounded search (radii 0..40) was exhausted. -/
def findFreePositionNearOpt (g : ℕ) (x y w h : ℚ) (obs : List PlacedEntity) :
    Option (ℚ × ℚ) :=
  searchRing g x y w h obs ((List.range 41).map (fun n => (n : ℚ)))

/-- `findFreePositionNear` from the source: the exhausted search falls back
to the intended (unsnapped, possibly overlapping) position. -/
def findFreePositionNear (g : ℕ) (x y w h : ℚ) (obs : List PlacedEntity) : ℚ × ℚ :=
  (findFreePositionNearOpt g x y w h obs).getD (x, y)

/-! ## Ports -/

def inputsCount (e : PlacedEntity) : ℕ :=
  if e.type = .merger then 3
  else match e.meta.node with
    | some n => if n.inputs.length ≠ 0 then n.inputs.length else (BUILDINGS e.type).inputs
    | none => (BUILDINGS e.type).inputs

def outputsCount (e : PlacedEntity) : ℕ :=
  if e.type = .splitter then 3 else (BUILDINGS e.type).outputs

inductive Side where
  | left | top | right | bottom
deriving DecidableEq

def inputSide : Rot → Side
  | .r0 => .left
  | .r90 => .top
  | .r180 => .right
  | .r270 => .bottom

def outputSide : Rot → Side
  | .r0 => .right
  | .r90 => .bottom
  | .r180 => .left
  | .r270 => .top

structure Point where
  x : ℚ
  y : ℚ
deriving DecidableEq

def portOnSide (e : PlacedEntity) (side : Side) (idx count : ℕ) : Point :=
  let w := e.meta.w
  let h := e.meta.h
  match side with
  | .left => ⟨e.x, e.y + (idx + 1) * (h / (count + 1))⟩
  | .right => ⟨e.x + w, e.y + (idx + 1) * (h / (count + 1))⟩
  | .top => ⟨e.x + (idx + 1) * (w / (count + 1)), e.y⟩
  | .bottom => ⟨e.x + (idx + 1) * (w / (count + 1)), e.y + h⟩

def inputPortOf (e : PlacedEntity) (idx : ℕ := 0) : Point :=
  portOnSide e (inputSide e.rotation) idx (max 1 (inputsCount e))

def outputPortOf (e : PlacedEntity) (idx : ℕ := 0) : Point :=
  portOnSide e (outputSide e.rotation) idx (max 1 (outputsCount e))

/-! ## SpatialAllocator (`autoLayout`) -/

/-- Pointwise concatenation of layer lists (`layers[depth].push` across a
depth-first traversal: a child subtree's nodes at a given depth precede the
next sibling subtree's nodes at that depth). The `includes` dedup test of
the source compares object identities; `buildChain` returns trees whose
nodes are pairwise distinct objects, so the test never fires and is not
modelled. -/
def mergeLayers : List (List Node) → List (List Node) → List (List Node)
  | [], bs => bs
  | as, [] => as
  | a :: as, b :: bs => (a ++ b) :: mergeLayers as bs

mutual

/-- The `traverse` closure of `autoLayout`: nodes grouped by depth. -/
def layersOf : Node → List (List Node)
  | .mk nm rid b orate m inputs =>
    [Node.mk nm rid b orate m inputs] ::
      (layersOfInputs inputs)

/-- Layer lists of the children of an input list, merged left to right. -/
def layersOfInputs : List (String × ℚ × Option Node) → List (List Node)
  | [] => []
  | (_, _, none) :: rest => layersOfInputs rest
  | (_, _, some c) :: rest => mergeLayers (layersOf c) (layersOfInputs rest)

end

/-- State threaded through `autoLayout`'s placement loops. -/
structure LayoutState where
  placements : List PlacedEntity
  obstacles : List PlacedEntity
  nextId : ℕ

/-- Place the `ceil(count)` physical instances of one node (the inner
`while` loop of `autoLayout`). `k` is the running instance index
(`placed`). -/
def placeInstances (g : ℕ) (node : Node) (x yBase : ℚ) (perRow : ℕ)
    (st : LayoutState) : ℕ → ℕ → LayoutState
  | 0, _ => st
  | remaining + 1, k =>
    let spec := BUILDINGS node.building
    let spacing : ℚ := 2
    let col := k % perRow
    let row := k / perRow
    let cx := x + col * (spec.w + spacing)
    let cy := yBase + row * (spec.h + spacing)
    let pos := findFreePositionNear g (snapToGrid g cx) (snapToGrid g cy)
      spec.w spec.h st.obstacles
    let ent : PlacedEntity :=
      ⟨st.nextId, node.building, pos.1, pos.2, .r0, ⟨spec.w, spec.h, some node⟩⟩
    placeInstances g node x yBase perRow
      ⟨st.placements ++ [ent], st.obstacles ++ [ent], st.nextId + 1⟩ remaining (k + 1)

/-- Number of physical instances of a node:
`Math.ceil(Math.ceil(machines * 100) / 100)`. -/
def instanceCount (node : Node) : ℕ :=
  (⌈(⌈node.machines * 100⌉ : ℚ) / 100⌉).toNat

/-- `perRow` for a node: `max(1, floor(FOUNDATION_M * 5.5 / (w + spacing)))`. -/
def perRowOf (node : Node) : ℕ :=
  max 1 (⌊(FOUNDATION_M * (11/2)) / ((BUILDINGS node.building).w + 2)⌋).toNat

/-- One layer of `autoLayout`: fold over its nodes advancing `x`. -/
def placeLayer (g : ℕ) (yBase : ℚ) : List Node → ℚ → LayoutState → LayoutState
  | [], _, st => st
  | node :: rest, x, st =>
    let spec := BUILDINGS node.building
    let spacing : ℚ := 2
    let st' := placeInstances g node x yBase (perRowOf node) st (instanceCount node) 0
    placeLayer g yBase rest (x + perRowOf node * (spec.w + spacing) + 12) st'

/-- The outer loop of `autoLayout`: layers are processed leaf-first
(`layers.slice().reverse()`), `yBase` advancing by 12 per layer. -/
def placeLayers (g : ℕ) (originX : ℚ) : List (List Node) → ℚ → LayoutState → LayoutState
  | [], _, st => st
  | layer :: rest, yBase, st =>
    placeLayers g originX rest (yBase + 12) (placeLayer g yBase layer originX st)

/-- `autoLayout` from the source (v3.1: `COLUMN_GAP = 12`,
`perRow` over `FOUNDATION_M * 5.5`). Returns the placements and the next
fresh id. -/
def autoLayout (g : ℕ) (root : Node) (originX originY : ℚ) (seed : ℕ) :
    List PlacedEntity × ℕ :=
  let st := placeLayers g originX (layersOf root).reverse originY ⟨[], [], seed⟩
  (st.placements, st.nextId)

/-! ## EdgeCollector (`collectEdges`) -/

structure Edge where
  sourceN : Node
  targetN : Node
  inputIndex : ℕ
  rate : ℚ
  item : String

mutual

/-- `collectEdges` from the source: depth-first, one edge per input slot
with a resolved child, edge pushed before recursing into the child. -/
def collectEdges : Node → List Edge
  | .mk nm rid b orate m inputs =>
    collectEdgesGo inputs (.mk nm rid b orate m inputs) 0
termination_by structural n => n

def collectEdgesGo : List (String × ℚ × Option Node) → Node → ℕ → List Edge
  | [], _, _ => []
  | (_, _, none) :: rest, parent, i => collectEdgesGo rest parent (i + 1)
  | (nm, rt, some c) :: rest, parent, i =>
    ⟨c, parent, i, rt, nm⟩ :: (collectEdges c ++ collectEdgesGo rest parent (i + 1))
termination_by structural l _ _ => l

end

/-- `entitiesForNode`: physical instances sharing the node's `recipeId`. -/
def entitiesForNode (ens : List PlacedEntity) (node : Node) : List PlacedEntity :=
  ens.filter (fun e =>
    match e.meta.node with
    | some n => n.recipeId == node.recipeId
    | none => false)

/-! ## JunctionPlanner (`planBeltsWithJunctions`) -/

/-- A transport link. The source stores a routed polyline (`segments`); the
polyline's endpoints are determined by the two port points passed to
`routeViaBus`, which are recorded here (the claims under verification are
about rates, junction identity and endpoints, none of which the pathfinding
changes). The derived `mk` tier and `color` are omitted for the same
reason; `minBeltMkFor` is verified separately. -/
structure Belt where
  id : ℕ
  rate : ℚ
  item : String
  src : Point
  dst : Point

def placeSplitterNear (g : ℕ) (prod : PlacedEntity) (obs : List PlacedEntity)
    (id : ℕ) : PlacedEntity :=
  let spec := BUILDINGS .splitter
  let intended : ℚ × ℚ := (prod.x + prod.meta.w + 1, prod.y + prod.meta.h / 2 - spec.h / 2)
  let pos := findFreePositionNear g intended.1 intended.2 spec.w spec.h obs
  ⟨id, .splitter, pos.1, pos.2, .r0, ⟨spec.w, spec.h, none⟩⟩

def placeMergerNear (g : ℕ) (cons : PlacedEntity) (obs : List PlacedEntity)
    (id : ℕ) : PlacedEntity :=
  let spec := BUILDINGS .merger
  let intended : ℚ × ℚ := (cons.x - spec.w - 1, cons.y + cons.meta.h / 2 - spec.h / 2)
  let pos := findFreePositionNear g intended.1 intended.2 spec.w spec.h obs
  ⟨id, .merger, pos.1, pos.2, .r0, ⟨spec.w, spec.h, none⟩⟩

/-- `horizontalBlocked`: does the band at height `y` spanning `x1..x2` meet
any obstacle expanded by `BUS_MARGIN`? -/
def horizontalBlocked (y x1 x2 : ℚ) (obs : List PlacedEntity) : Bool :=
  let a := min x1 x2
  let b := max x1 x2
  obs.any (fun o =>
    let r := expandRect (rectOfEntity o) BUS_MARGIN
    decide (r.y ≤ y) && decide (y ≤ r.y + r.h) &&
      !(decide (b ≤ r.x) || decide (r.x + r.w ≤ a)))

/-- The probe loop of `ensureBusY` over `k = 0..99`. -/
def busProbe (g : ℕ) (base : ℚ) (minX maxX : ℚ) (obs : List PlacedEntity) :
    List ℕ → Option ℚ
  | [] => none
  | k :: rest =>
    let y := snapToGrid g (base + k * BUS_SPACING)
    if !horizontalBlocked y minX maxX obs then some y
    else busProbe g base minX maxX obs rest

/-- Least element of a list of rationals (`Math.min(...l)`); the `|| 0`
guard of the source only matters for an empty spread, which cannot occur on
the modelled call paths (the caller returns early when no producers exist). -/
def qMin : List ℚ → ℚ
  | [] => 0
  | x :: xs => xs.foldl min x

def qMax : List ℚ → ℚ
  | [] => 0
  | x :: xs => xs.foldl max x

/-- `ensureBusY`: memoized per item; baseline from the obstacle bounding
box, probing every `BUS_SPACING`, falling back to the baseline. Returns the
chosen y and the updated memo. -/
def ensureBusY (g : ℕ) (item : String) (obs : List PlacedEntity)
    (xRange : ℚ × ℚ) (buses : List (String × ℚ)) : ℚ × List (String × ℚ) :=
  match (buses.find? (fun b => b.1 == item)).map (·.2) with
  | some y => (y, buses)
  | none =>
    let ys := obs.flatMap (fun o => [o.y, o.y + o.meta.h])
    let base : ℚ := (⌊qMin ys + FOUNDATION_M / 2⌋ : ℤ)
    match busProbe g base xRange.1 xRange.2 obs (List.range 100) with
    | some y => (y, buses ++ [(item, y)])
    | none =>
      let y := snapToGrid g base
      (y, buses ++ [(item, y)])

/-- Planner state threaded over the edge loop of `planBeltsWithJunctions`.
The `Map`s keyed by entity id are association lists (insertion only happens
at an absent key). -/
structure PlanState where
  belts : List Belt
  extras : List PlacedEntity
  obstacles : List PlacedEntity
  splitterByProdId : List (ℕ × PlacedEntity)
  mergerByConsId : List (ℕ × PlacedEntity)
  busMap : List (String × ℚ)
  busVis : List (String × ℚ)
  nextId : ℕ

def lookupJ (m : List (ℕ × PlacedEntity)) (k : ℕ) : Option PlacedEntity :=
  (m.find? (fun p => p.1 == k)).map (·.2)

def headEnt (l : List PlacedEntity) : PlacedEntity :=
  l.headD ⟨0, .smelter, 0, 0, .r0, ⟨0, 0, none⟩⟩

/-- Append a belt (each `belts.push` also draws a fresh id). -/
def pushBelt (st : PlanState) (rate : ℚ) (item : String) (src dst : Point) :
    PlanState :=
  { st with belts := st.belts ++ [⟨st.nextId, rate, item, src, dst⟩],
            nextId := st.nextId + 1 }

/-- The `producers.map` of the N→N branch: fetch or create one splitter per
producer, appending the producer→splitter belt on creation. -/
def makeSplitters (g : ℕ) (perProducerRate : ℚ) (item : String) :
    List PlacedEntity → PlanState → List PlacedEntity → PlanState × List PlacedEntity
  | [], st, acc => (st, acc)
  | prod :: rest, st, acc =>
    match lookupJ st.splitterByProdId prod.id with
    | some s => makeSplitters g perProducerRate item rest st (acc ++ [s])
    | none =>
      let s := placeSplitterNear g prod st.obstacles st.nextId
      let st := { st with
        splitterByProdId := st.splitterByProdId ++ [(prod.id, s)],
        extras := st.extras ++ [s],
        obstacles := st.obstacles ++ [s],
        nextId := st.nextId + 1 }
      let st := pushBelt st perProducerRate item (outputPortOf prod) (inputPortOf s)
      makeSplitters g perProducerRate item rest st (acc ++ [s])

/-- The `consumers.map` of the N→N branch: fetch or create one merger per
consumer, appending the merger→consumer belt on creation. -/
def makeMergers (g : ℕ) (perConsumerRate : ℚ) (item : String) (inputIndex : ℕ) :
    List PlacedEntity → PlanState → List PlacedEntity → PlanState × List PlacedEntity
  | [], st, acc => (st, acc)
  | cons :: rest, st, acc =>
    match lookupJ st.mergerByConsId cons.id with
    | some m => makeMergers g perConsumerRate item inputIndex rest st (acc ++ [m])
    | none =>
      let m := placeMergerNear g cons st.obstacles st.nextId
      let st := { st with
        mergerByConsId := st.mergerByConsId ++ [(cons.id, m)],
        extras := st.extras ++ [m],
        obstacles := st.obstacles ++ [m],
        nextId := st.nextId + 1 }
      let st := pushBelt st perConsumerRate item (outputPortOf m) (inputPortOf cons inputIndex)
      makeMergers g perConsumerRate item inputIndex rest st (acc ++ [m])

/-- Splitter→consumer fan-out belts (`consumers.forEach` of the 1→N
branch), `outIdx = j % outputsCount(split)`. -/
def fanOutBelts (split : PlacedEntity) (perConsumerRate : ℚ) (item : String)
    (inputIndex : ℕ) : List PlacedEntity → ℕ → PlanState → PlanState
  | [], _, st => st
  | cons :: rest, j, st =>
    let st := pushBelt st perConsumerRate item
      (outputPortOf split (j % outputsCount split)) (inputPortOf cons inputIndex)
    fanOutBelts split perConsumerRate item inputIndex rest (j + 1) st

/-- Producer→merger fan-in belts (`producers.forEach` of the N→1 branch),
`inIdx = j % inputsCount(merge)`. -/
def fanInBelts (merge : PlacedEntity) (perProducerRate : ℚ) (item : String) :
    List PlacedEntity → ℕ → PlanState → PlanState
  | [], _, st => st
  | prod :: rest, j, st =>
    let st := pushBelt st perProducerRate item
      (outputPortOf prod) (inputPortOf merge (j % inputsCount merge))
    fanInBelts merge perProducerRate item rest (j + 1) st

/-- The splitter×merger full mesh of the N→N branch
(`outIdx = k % outputsCount(s)`, merger input index fixed at 0). -/
def meshBelts (rate : ℚ) (item : String) (mergers : List PlacedEntity) :
    List PlacedEntity → PlanState → PlanState
  | [], st => st
  | s :: srest, st =>
    let st := meshRow s rate item mergers 0 st
    meshBelts rate item mergers srest st
where
  meshRow (s : PlacedEntity) (rate : ℚ) (item : String) :
      List PlacedEntity → ℕ → PlanState → PlanState
    | [], _, st => st
    | m :: mrest, k, st =>
      let st := pushBelt st rate item
        (outputPortOf s (k % outputsCount s)) (inputPortOf m 0)
      meshRow s rate item mrest (k + 1) st

/-- The bus bookkeeping at the top of the edge loop body: memoize the
item's bus height and record it for display. -/
def busTouch (g : ℕ) (xRange : ℚ × ℚ) (item : String) (st : PlanState) : PlanState :=
  let busY := (ensureBusY g item st.obstacles xRange st.busMap).1
  let busMap' := (ensureBusY g item st.obstacles xRange st.busMap).2
  let busVis' := if st.busVis.any (fun b => b.1 == item) then st.busVis
    else st.busVis ++ [(item, busY)]
  { st with busMap := busMap', busVis := busVis' }

/-- The `1 → N` (split) branch. -/
def fanOutCase (g : ℕ) (edge : Edge) (producers consumers : List PlacedEntity)
    (st : PlanState) : PlanState :=
  let total := edge.rate
  let perConsumerRate := total / consumers.length
  let prod := headEnt producers
  match lookupJ st.splitterByProdId prod.id with
  | some split =>
    fanOutBelts split perConsumerRate edge.item edge.inputIndex consumers 0 st
  | none =>
    let split := placeSplitterNear g prod st.obstacles st.nextId
    let st := { st with
      splitterByProdId := st.splitterByProdId ++ [(prod.id, split)],
      extras := st.extras ++ [split],
      obstacles := st.obstacles ++ [split],
      nextId := st.nextId + 1 }
    let st := pushBelt st total edge.item (outputPortOf prod) (inputPortOf split)
    fanOutBelts split perConsumerRate edge.item edge.inputIndex consumers 0 st

/-- The `N → 1` (merge) branch. -/
def fanInCase (g : ℕ) (edge : Edge) (producers consumers : List PlacedEntity)
    (st : PlanState) : PlanState :=
  let total := edge.rate
  let perProducerRate := total / producers.length
  let cons := headEnt consumers
  match lookupJ st.mergerByConsId cons.id with
  | some merge =>
    fanInBelts merge perProducerRate edge.item producers 0 st
  | none =>
    let merge := placeMergerNear g cons st.obstacles st.nextId
    let st := { st with
      mergerByConsId := st.mergerByConsId ++ [(cons.id, merge)],
      extras := st.extras ++ [merge],
      obstacles := st.obstacles ++ [merge],
      nextId := st.nextId + 1 }
    let st := pushBelt st total edge.item (outputPortOf merge) (inputPortOf cons edge.inputIndex)
    fanInBelts merge perProducerRate edge.item producers 0 st

/-- The `N → N` (split + merge) branch. -/
def meshCase (g : ℕ) (edge : Edge) (producers consumers : List PlacedEntity)
    (st : PlanState) : PlanState :=
  let total := edge.rate
  let perConsumerRate := total / consumers.length
  let perProducerRate := total / producers.length
  let ms := makeSplitters g perProducerRate edge.item producers st []
  let mm := makeMergers g perConsumerRate edge.item edge.inputIndex consumers ms.1 []
  let rateSplitToMerge := total / (max 1 producers.length : ℕ)
  meshBelts (rateSplitToMerge / mm.2.length) edge.item mm.2 ms.2 mm.1

/-- The `1 → 1` direct branch. -/
def directCase (edge : Edge) (producers consumers : List PlacedEntity)
    (st : PlanState) : PlanState :=
  let prod := headEnt producers
  let cons := headEnt consumers
  pushBelt st edge.rate edge.item (outputPortOf prod) (inputPortOf cons edge.inputIndex)

/-- Processing of one edge inside `planBeltsWithJunctions` (the body of the
`edges.forEach`). `xRange` is the bus x-extent computed once from the
initial obstacle set. -/
def processEdge (g : ℕ) (xRange : ℚ × ℚ) (st : PlanState) (edge : Edge) :
    PlanState :=
  let producers := entitiesForNode st.obstacles edge.sourceN
  let consumers := entitiesForNode st.obstacles edge.targetN
  if producers.length = 0 ∨ consumers.length = 0 then st
  else
    let st := busTouch g xRange edge.item st
    if producers.length = 1 ∧ consumers.length > 1 then
      fanOutCase g edge producers consumers st
    else if producers.length > 1 ∧ consumers.length = 1 then
      fanInCase g edge producers consumers st
    else if producers.length > 1 ∧ consumers.length > 1 then
      meshCase g edge producers consumers st
    else
      directCase edge producers consumers st

/-- The bus x-extent of `planBeltsWithJunctions` (`Math.min(...xs) - 6`,
`Math.max(...xs) + 18`), degenerate when there are no entities (in which
case it is never read). -/
def busXRange (ents : List PlacedEntity) : ℚ × ℚ :=
  let xs := ents.flatMap (fun o => [o.x, o.x + o.meta.w])
  (qMin xs - 6, qMax xs + 18)

/-- `planBeltsWithJunctions`: full final state after folding over
`collectEdges root`. -/
def planBeltsState (g : ℕ) (allEntities : List PlacedEntity) (root : Node)
    (seed : ℕ) : PlanState :=
  (collectEdges root).foldl (processEdge g (busXRange allEntities))
    ⟨[], [], allEntities, [], [], [], [], seed⟩

/-- The result record `{ belts, extras, buses }` of
`planBeltsWithJunctions`. -/
def planBeltsWithJunctions (g : ℕ) (allEntities : List PlacedEntity)
    (root : Node) (seed : ℕ) :
    List Belt × List PlacedEntity × List (String × ℚ) :=
  let st := planBeltsState g allEntities root seed
  (st.belts, st.extras, st.busVis)

/-! ## PathRouter (`routeDirectionalWithBias`, direct mode) -/

structure BeltSegment where
  x : ℚ
  y : ℚ
  w : ℚ
  h : ℚ
deriving DecidableEq

/-- `Math.sign`. -/
def qSign (q : ℚ) : ℤ := if q < 0 then -1 else if 0 < q then 1 else 0

/-- `routeManhattan`: the deterministic 3-segment right-angle fallback. -/
def routeManhattan (a b : Point) : List BeltSegment :=
  let t := BELT_THICKNESS_M
  let midX : ℚ := (jsRound ((a.x + b.x) / 2) : ℤ)
  let x1 := min a.x midX
  let x2 := max a.x midX
  let y1 := min a.y b.y
  let y2 := max a.y b.y
  let x3 := min midX b.x
  let x4 := max midX b.x
  [⟨x1, a.y - t / 2, x2 - x1, t⟩,
   ⟨midX - t / 2, y1, t, y2 - y1⟩,
   ⟨x3, b.y - t / 2, x4 - x3, t⟩]

/-- `pointInRect` (closed). -/
def pointInRectB (px py : ℚ) (r : Rect) : Bool :=
  decide (r.x ≤ px) && decide (px ≤ r.x + r.w) &&
    decide (r.y ≤ py) && decide (py ≤ r.y + r.h)

/-- The `collides` test of the router: a tolerance disc of radius
`START_END_FREE_RADIUS` around either port is always free
(`Math.hypot dx dy <= R` is modelled by the equivalent `dx^2 + dy^2 ≤ R^2`). -/
def routeCollides (start finish : Point) (obstacles : List Rect)
    (cx cy : ℚ) : Bool :=
  if decide ((cx - start.x) ^ 2 + (cy - start.y) ^ 2 ≤ START_END_FREE_RADIUS ^ 2) then false
  else if decide ((cx - finish.x) ^ 2 + (cy - finish.y) ^ 2 ≤ START_END_FREE_RADIUS ^ 2) then false
  else obstacles.any (fun r => pointInRectB cx cy r)

/-- An entry of the `open` list: priority, grid cell, incoming direction
(0 = east, 1 = west, 2 = north, 3 = south; the start carries 0). -/
structure OpenNode where
  f : ℚ
  gx : ℤ
  gy : ℤ
  dir : ℕ
deriving DecidableEq

/-- The fixed parameters of one routing call. -/
structure RouteCtx where
  start : Point
  finish : Point
  obstacles : List Rect
  bias : ℕ        -- 0 = none, 1 = preferHorizontal, 2 = preferVertical
  minX : ℤ
  minY : ℤ
  cols : ℤ
  rows : ℤ
  sGX : ℤ
  sGY : ℤ
  eGX : ℤ
  eGY : ℤ

def RouteCtx.toWorldX (c : RouteCtx) (gx : ℤ) : ℚ := (c.minX : ℚ) + gx
def RouteCtx.toWorldY (c : RouteCtx) (gy : ℤ) : ℚ := (c.minY : ℚ) + gy

def RouteCtx.inBounds (c : RouteCtx) (gx gy : ℤ) : Bool :=
  decide (0 ≤ gx) && decide (gx < c.cols) && decide (0 ≤ gy) && decide (gy < c.rows)

/-- Mutable search state: the `open` array and the `gScore`/`came` maps
(string-keyed `Map`s in the source, keyed here by the grid pair). -/
structure AStarState where
  openList : List OpenNode
  gScore : ℤ × ℤ → Option ℚ
  came : ℤ × ℤ → Option (ℤ × ℤ)

def WEST_PENALTY : ℚ := 8
def TURN_PENALTY : ℚ := 7/10
def VERT_PENALTY : ℚ := 1/20

/-- Step cost of moving in direction `ndir` having arrived by `dir`,
including the axis bias of the v3.1 router. -/
def stepCost (bias : ℕ) (dir ndir : ℕ) : ℚ :=
  let c : ℚ := 1
  let c := if ndir = 1 then c + WEST_PENALTY else c
  let c := if ndir = 2 ∨ ndir = 3 then c + VERT_PENALTY else c
  let c := if ndir ≠ dir then c + TURN_PENALTY else c
  let c := if bias = 1 ∧ (ndir = 2 ∨ ndir = 3) then c + 7/10 else c
  if bias = 2 ∧ (ndir = 0 ∨ ndir = 1) then c + 7/10 else c

/-- The heuristic: grid Manhattan distance plus a small eastward bias. -/
def heur (c : RouteCtx) (gx gy : ℤ) : ℚ :=
  (|gx - c.eGX| : ℤ) + (|gy - c.eGY| : ℤ) + (max 0 (c.eGX - gx) : ℤ) * (1/20)

/-- Relaxation of one neighbour `(dx, dy, ndir)` of the popped node. -/
def relaxNeighbor (c : RouteCtx) (cur : OpenNode) (g : ℚ)
    (st : AStarState) (n : ℤ × ℤ × ℕ) : AStarState :=
  let ngx := cur.gx + n.1
  let ngy := cur.gy + n.2.1
  let ndir := n.2.2
  if !c.inBounds ngx ngy then st
  else if routeCollides c.start c.finish c.obstacles (c.toWorldX ngx) (c.toWorldY ngy) then st
  else
    let tentative := g + stepCost c.bias cur.dir ndir
    let old := (st.gScore (ngx, ngy)).getD 0
    if (st.gScore (ngx, ngy)).isNone ∨ tentative < old then
      let f := tentative + heur c ngx ngy
      let came' := fun k => if k = (ngx, ngy) then some (cur.gx, cur.gy) else st.came k
      let gScore' := fun k => if k = (ngx, ngy) then some tentative else st.gScore k
      let openL :=
        match findIndexP (fun t => t.gx == ngx && t.gy == ngy) st.openList with
        | none => st.openList ++ [⟨f, ngx, ngy, ndir⟩]
        | some idx =>
          if f < ((st.openList.getD idx ⟨0, 0, 0, 0⟩).f) then
            (st.openList.eraseIdx idx) ++ [⟨f, ngx, ngy, ndir⟩]
          else st.openList
      ⟨openL, gScore', came'⟩
    else st

/-- Stable insertion of an entry behind every entry of smaller-or-equal
priority. -/
def insertByF (a : OpenNode) : List OpenNode → List OpenNode
  | [] => [a]
  | b :: bs => if b.f ≤ a.f then b :: insertByF a bs else a :: b :: bs

/-- Stable sort by `f` (the JavaScript `Array.prototype.sort` comparator
`(a, b) => a.f - b.f` is a stable sort since ES2019). -/
def sortByF (l : List OpenNode) : List OpenNode :=
  l.foldl (fun acc a => insertByF a acc) []

/-- One iteration of the `while (open.length)` loop: sort by `f` (the
JavaScript in-place stable sort), shift the head, stop on the goal,
otherwise relax the four neighbours. Returns `Sum.inl` with the final state
and the goal-found flag when the loop exits, `Sum.inr` with the next state
otherwise. -/
def astarIter (c : RouteCtx) (st : AStarState) :
    (AStarState × Bool) ⊕ AStarState :=
  match sortByF st.openList with
  | [] => Sum.inl (st, false)
  | cur :: rest =>
    if cur.gx = c.eGX ∧ cur.gy = c.eGY then Sum.inl (st, true)
    else
      let g := (st.gScore (cur.gx, cur.gy)).getD 0
      let st := AStarState.mk rest st.gScore st.came
      let neigh : List (ℤ × ℤ × ℕ) := [(1, 0, 0), (-1, 0, 1), (0, -1, 2), (0, 1, 3)]
      Sum.inr (neigh.foldl (relaxNeighbor c cur g) st)

/-- The search loop with fuel; `none` = fuel exhausted (model incomplete),
`some (st, found)`. -/
def astarLoop (c : RouteCtx) : ℕ → AStarState → Option (AStarState × Bool)
  | 0, _ => none
  | fuel + 1, st =>
    match astarIter c st with
    | Sum.inl r => some r
    | Sum.inr st' => astarLoop c fuel st'

/-- Path reconstruction (`while (curKey !== sKey)`), with fuel. Cells are
collected goal-first exactly as in the source and reversed by the caller. -/
def rebuildPath (c : RouteCtx) (came : ℤ × ℤ → Option (ℤ × ℤ)) :
    ℕ → ℤ × ℤ → List Point → Option (List Point)
  | 0, _, _ => none
  | fuel + 1, cur, acc =>
    if cur = (c.sGX, c.sGY) then some acc
    else
      let acc := acc ++ [⟨c.toWorldX cur.1, c.toWorldY cur.2⟩]
      match came cur with
      | none => some acc
      | some nxt => rebuildPath c came fuel nxt acc

/-- The inner run scan of the segment compression: extend the current run
while the step sign is unchanged. -/
def scanRun (dir : ℤ × ℤ) : Point → List Point → Point × List Point
  | cur, [] => (cur, [])
  | cur, nxt :: rest =>
    if qSign (nxt.x - cur.x) = dir.1 ∧ qSign (nxt.y - cur.y) = dir.2
    then scanRun dir nxt rest
    else (cur, nxt :: rest)

/-- Compression of the cell path into axis-aligned thin segments; the fuel
(always instantiated with the cell count) only bounds the recursion. -/
def compressCellsF : ℕ → List Point → List BeltSegment
  | 0, _ => []
  | _, [] => []
  | _, [_] => []
  | fuel + 1, a :: b :: rest =>
    let dir := (qSign (b.x - a.x), qSign (b.y - a.y))
    let (endP, rem) := scanRun dir b rest
    let seg : BeltSegment :=
      if dir.2 = 0 then
        ⟨min a.x endP.x, a.y - BELT_THICKNESS_M / 2, max a.x endP.x - min a.x endP.x,
          BELT_THICKNESS_M⟩
      else
        ⟨a.x - BELT_THICKNESS_M / 2, min a.y endP.y, BELT_THICKNESS_M,
          max a.y endP.y - min a.y endP.y⟩
    seg :: compressCellsF fuel (endP :: rem)

/-- `routeDirectionalWithBias`, with fuel for the two unbounded loops.
`none` = fuel exhausted; `some segs` is the source's return value
(including the `routeManhattan` fallback when the search empties its open
list without reaching the goal). -/
def routeDirectionalWithBiasF (fuel : ℕ) (start finish : Point)
    (ens : List PlacedEntity) (bias : ℕ) : Option (List BeltSegment) :=
  let obstacles := ens.map (fun e => expandRect (rectOfEntity e) CLEARANCE_M)
  let xs := [start.x, finish.x] ++ obstacles.map (·.x) ++ obstacles.map (fun r => r.x + r.w)
  let ys := [start.y, finish.y] ++ obstacles.map (·.y) ++ obstacles.map (fun r => r.y + r.h)
  let minX : ℤ := ⌊qMin xs - 8⌋
  let maxX : ℤ := ⌈qMax xs + 8⌉
  let minY : ℤ := ⌊qMin ys - 8⌋
  let maxY : ℤ := ⌈qMax ys + 8⌉
  let cols : ℤ := max 1 (maxX - minX)
  let rows : ℤ := max 1 (maxY - minY)
  let sGX := jsRound (start.x - minX)
  let sGY := jsRound (start.y - minY)
  let eGX := jsRound (finish.x - minX)
  let eGY := jsRound (finish.y - minY)
  let c : RouteCtx := ⟨start, finish, obstacles, bias, minX, minY, cols, rows, sGX, sGY, eGX, eGY⟩
  let sKey : ℤ × ℤ := (sGX, sGY)
  let st0 : AStarState :=
    ⟨[⟨(|sGX - eGX| : ℤ) + (|sGY - eGY| : ℤ), sGX, sGY, 0⟩],
     fun k => if k = sKey then some 0 else none,
     fun _ => none⟩
  match astarLoop c fuel st0 with
  | none => none
  | some (_, false) => some (routeManhattan start finish)
  | some (st, true) =>
    match rebuildPath c st.came fuel (eGX, eGY) [] with
    | none => none
    | some cells0 =>
      let cells := (cells0 ++ [start]).reverse
      some (compressCellsF cells.length cells)

/-- Length carried by one thin segment (its long side). -/
def segLen (s : BeltSegment) : ℚ := max s.w s.h

def totalLen (l : List BeltSegment) : ℚ := (l.map segLen).sum

/-! ## `runPlanner` -/

/-- `runPlanner` from the source. `none` models the early returns (empty
target or unresolvable chain), which leave the board untouched; `some`
carries the new entity list, the belts and the buses. `fuel` feeds the
`buildChain` recursion; `seed` is the fresh-id counter. -/
def runPlanner (recipes : List Recipe) (fuel : ℕ) (g : ℕ)
    (entities : List PlacedEntity) (targetItem : String) (targetRate : ℚ)
    (preferAlt : Bool) (seed : ℕ) :
    Option (List PlacedEntity × List Belt × List (String × ℚ)) :=
  if targetItem == "" then none
  else
    match buildChainF recipes preferAlt fuel targetItem targetRate with
    | none => none
    | some none => none
    | some (some chain) =>
      let placement := (autoLayout g chain 8 8 seed).1
      let seed' := (autoLayout g chain 8 8 seed).2
      let combined := entities.filter (fun e => e.meta.node.isNone) ++ placement
      let pbr := planBeltsWithJunctions g combined chain seed'
      some (combined ++ pbr.2.1, pbr.1, pbr.2.2)

/-! ## Concrete fixtures used by witnesses and counterexamples -/

/-- The §8 end-to-end catalog: the target's recipe outputs 30/min and needs
one input at 30/min; the input's recipe outputs 15/min (its own input has
no recipe and stays a raw leaf). -/
def rTargetC8 : Recipe := ⟨"rT", ⟨"Target", 30⟩, [⟨"ItemB", 30⟩], .constructorB, false⟩

def rInputC8 : Recipe := ⟨"rB", ⟨"ItemB", 15⟩, [⟨"Ore", 30⟩], .smelter, false⟩

def catC8 : List Recipe := [rTargetC8, rInputC8]

/-- The demand tree `buildChain` produces for `catC8` at 30/min. -/
def chainC8 : Node :=
  .mk "Target" "rT" .constructorB 30 1
    [("ItemB", 30, some (.mk "ItemB" "rB" .smelter 30 2 [("Ore", 60, none)]))]

/-- A catalog with one standard and one alternate recipe for `"X"`. -/
def rStdX : Recipe := ⟨"rS", ⟨"X", 10⟩, [], .smelter, false⟩

def rAltX : Recipe := ⟨"rA2", ⟨"X", 20⟩, [], .smelter, true⟩

def catC2 : List Recipe := [rStdX, rAltX]

/-- A self-cyclic catalog: the recipe for `"Loop"` consumes `"Loop"`. -/
def catCyc : List Recipe := [⟨"rLoop", ⟨"Loop", 10⟩, [⟨"Loop", 10⟩], .smelter, false⟩]

/-- One-recipe catalog used for layout/planner witnesses. -/
def catC5 : List Recipe := [⟨"rP", ⟨"Plate", 30⟩, [⟨"Ore", 30⟩], .smelter, false⟩]

/-- Junction-reuse scenario: a root consuming two items, each produced by
several machines, so that both edges target the same consumer entity. -/
def nodeA3 : Node := .mk "ItemA" "rA" .constructorB 120 2 [("OreA", 240, none)]

def nodeB3 : Node := .mk "ItemB" "rB" .constructorB 240 4 [("OreB", 480, none)]

def rootC3 : Node :=
  .mk "ItemR" "rR" .assembler 10 1
    [("ItemA", 120, some nodeA3), ("ItemB", 240, some nodeB3)]

/-- Hand-placed physical instances for `rootC3`: one consumer, two
`ItemA` producers, four `ItemB` producers, far apart on the integer grid. -/
def entsC3 : List PlacedEntity :=
  [⟨0, .assembler, 200, 40, .r0, ⟨10, 15, some rootC3⟩⟩,
   ⟨1, .constructorB, 0, 0, .r0, ⟨8, 10, some nodeA3⟩⟩,
   ⟨2, .constructorB, 0, 20, .r0, ⟨8, 10, some nodeA3⟩⟩,
   ⟨3, .constructorB, 60, 0, .r0, ⟨8, 10, some nodeB3⟩⟩,
   ⟨4, .constructorB, 60, 20, .r0, ⟨8, 10, some nodeB3⟩⟩,
   ⟨5, .constructorB, 60, 40, .r0, ⟨8, 10, some nodeB3⟩⟩,
   ⟨6, .constructorB, 60, 60, .r0, ⟨8, 10, some nodeB3⟩⟩]

/-- The item-dependency relation induced by recipe resolution:
`depRel recipes alt y x` holds when the recipe chosen for `x` has an input
named `y` that is itself craftable — exactly the situation in which
`buildChain x` recurses into `buildChain y`. -/
def depRel (recipes : List Recipe) (alt : Bool) (y x : String) : Prop :=
  ∃ r, findRecipeByProduct recipes x alt = some r ∧
    (∃ inp ∈ r.inputs, inp.name = y) ∧
    (findRecipeByProduct recipes y alt).isSome = true

/-- Verification predicate for the junction planner state: the two junction
maps have pairwise-distinct keys (owning entity identities), and the
junction entities accumulated in `extras` are exactly the map values, in
creation order. -/
def JInv (st : PlanState) : Prop :=
  (st.splitterByProdId.map Prod.fst).Nodup ∧
  (st.mergerByConsId.map Prod.fst).Nodup ∧
  st.extras.filter (fun e => e.type == .splitter) = st.splitterByProdId.map Prod.snd ∧
  st.extras.filter (fun e => e.type == .merger) = st.mergerByConsId.map Prod.snd

/-- A manually placed entity (no planner back-reference in its `meta`). -/
def entManual : PlacedEntity := ⟨50, .smelter, 100, 100, .r0, ⟨6, 9, none⟩⟩

/-- A pre-existing splitter assignment used to witness junction reuse. -/
def splitC6 : PlacedEntity := ⟨70, .splitter, 300, 300, .r0, ⟨4, 4, none⟩⟩

/-- The demand node of `catC5` at 30/min. -/
def nodePlate : Node := .mk "Plate" "rP" .smelter 30 1 [("Ore", 30, none)]

/-- The single machine `runPlanner` places for `catC5` at 30/min. -/
def plateEnt : PlacedEntity := ⟨0, .smelter, 8, 8, .r0, ⟨6, 9, some nodePlate⟩⟩

/-- The demand node of `catC5` at 60/min (two machines). -/
def nodePlate60 : Node := .mk "Plate" "rP" .smelter 60 2 [("Ore", 60, none)]

/-- The two machines `runPlanner` places for `catC5` at 60/min. -/
def plateA : PlacedEntity := ⟨0, .smelter, 8, 8, .r0, ⟨6, 9, some nodePlate60⟩⟩

def plateB : PlacedEntity := ⟨1, .smelter, 16, 8, .r0, ⟨6, 9, some nodePlate60⟩⟩

/-- A manually placed smelter sitting exactly where `autoLayout` will put
the run's first machine: `autoLayout` starts from an empty obstacle list,
so the machine lands on top of it. -/
def entManualOverlap : PlacedEntity := ⟨50, .smelter, 8, 8, .r0, ⟨6, 9, none⟩⟩

/-- The physical producer instances the junction planner resolves for an
edge (`entitiesForNode(obstacles, edge.from)`). -/
def edgeProducers (st : PlanState) (e : Edge) : List PlacedEntity :=
  entitiesForNode st.obstacles e.sourceN

/-- The physical consumer instances the junction planner resolves for an
edge (`entitiesForNode(obstacles, edge.to)`). -/
def edgeConsumers (st : PlanState) (e : Edge) : List PlacedEntity :=
  entitiesForNode st.obstacles e.targetN

/-- The rates of the belts appended by processing one edge. -/
def newBeltRates (g : ℕ) (xr : ℚ × ℚ) (st : PlanState) (e : Edge) : List ℚ :=
  ((processEdge g xr st e).belts.map Belt.rate).drop st.belts.length

/-- A single producer instance for the 1→1 witness. -/
def entProdW : PlacedEntity := ⟨10, .smelter, 0, 0, .r0, ⟨6, 9, some nodeA3⟩⟩

/-- A single consumer instance for the 1→1 witness. -/
def entConsW : PlacedEntity := ⟨11, .assembler, 100, 0, .r0, ⟨10, 15, some rootC3⟩⟩

def stW : PlanState := ⟨[], [], [entProdW, entConsW], [], [], [], [], 500⟩

def edgeW : Edge := ⟨nodeA3, rootC3, 0, 42, "ItemA"⟩

/-- Initial junction-planner state over the `entsC3` board. -/
def initStateC3 : PlanState := ⟨[], [], entsC3, [], [], [], [], 100⟩

/-- The planner state after the first `n` collected edges of `rootC3`. -/
def stateAfterC3 (n : ℕ) : PlanState :=
  ((collectEdges rootC3).take n).foldl (processEdge 1 (busXRange entsC3)) initStateC3

/-! # Theorems -/

/-- One-step unfolding of `buildChainF` at positive fuel. -/
theorem buildChainF_succ (recipes : List Recipe) (alt : Bool) (fuel : ℕ)
    (name : String) (rate : ℚ) :
    buildChainF recipes alt (fuel + 1) name rate =
      match findRecipeByProduct recipes name alt with
      | none => some none
      | some r =>
        match buildSlots recipes alt (buildChainF recipes alt fuel)
            (r.inputs.map (fun inp => (inp.name, rate * inp.rate / r.product.rate))) with
        | none => none
        | some inputs =>
          some (some (Node.mk r.product.name r.id r.building rate
            (rate / r.product.rate) inputs)) := rfl

/-- C1: whenever a recipe exists for the requested item (and the recursion
completes), the returned `DemandNode`'s `machines` field is exactly the
requested rate divided by the chosen recipe's output rate — the rational
division itself, with no rounding. -/
theorem buildChain_machines (recipes : List Recipe) (alt : Bool) (fuel : ℕ)
    (name : String) (rate : ℚ) (r : Recipe)
    (hfind : findRecipeByProduct recipes name alt = some r)
    (hsome : (buildChainF recipes alt (fuel + 1) name rate).isSome = true) :
    (buildChainF recipes alt (fuel + 1) name rate).map (Option.map Node.machines) =
      some (some (rate / r.product.rate)) := by
  rw [buildChainF_succ, hfind] at hsome ⊢
  dsimp only at hsome ⊢
  rcases hsl : buildSlots recipes alt (buildChainF recipes alt fuel)
      (r.inputs.map (fun inp => (inp.name, rate * inp.rate / r.product.rate))) with _ | inputs
  · rw [hsl] at hsome
    simp at hsome
  · rw [hsl]
    simp [Node.machines]

/-- Witness for C1 at the concrete `catC8` catalog:
`machines = 30 / 30`. -/
theorem buildChain_machines_witness :
    (buildChainF catC8 false 3 "Target" 30).map (Option.map Node.machines) =
      some (some (30 / rTargetC8.product.rate)) :=
  buildChain_machines catC8 false 2 "Target" 30 rTargetC8 (by decide) (by decide)

/-- C2: recipe resolution. With no producing recipe the lookup fails; with
producing recipes it returns a producing recipe, preferring an alternate
when `preferAlternate` is set and one exists, and preferring a standard
recipe when the flag is clear and one exists (so with only one kind
available, membership forces that kind to be returned regardless of the
flag, and the "first candidate" fallback is subsumed). -/
theorem findRecipe_selection (recipes : List Recipe) (name : String) (alt : Bool) :
    ((∀ r ∈ recipes, r.product.name ≠ name) →
      findRecipeByProduct recipes name alt = none) ∧
    (∀ c ∈ recipes, c.product.name = name →
      ∃ r, findRecipeByProduct recipes name alt = some r ∧
        r ∈ recipes ∧ r.product.name = name ∧
        (alt = true → (∃ a ∈ recipes, a.product.name = name ∧ a.alt = true) →
          r.alt = true) ∧
        (alt = false → (∃ s ∈ recipes, s.product.name = name ∧ s.alt = false) →
          r.alt = false)) := by
  have hmem : ∀ x : Recipe, x ∈ recipes.filter (fun r => r.product.name == name) ↔
      x ∈ recipes ∧ x.product.name = name := by
    intro x
    simp [List.mem_filter]
  constructor
  · intro hnone
    have hfil : recipes.filter (fun r => r.product.name == name) = [] := by
      rw [List.filter_eq_nil_iff]
      intro a ha
      simpa using hnone a ha
    simp [findRecipeByProduct, hfil]
  · intro c hc hcn
    have hcf : c ∈ recipes.filter (fun r => r.product.name == name) :=
      (hmem c).mpr ⟨hc, hcn⟩
    rcases hfil : recipes.filter (fun r => r.product.name == name) with _ | ⟨c0, cs⟩
    · rw [hfil] at hcf
      exact absurd hcf (List.not_mem_nil c)
    · have hc0 : c0 ∈ recipes.filter (fun r => r.product.name == name) := by
        rw [hfil]
        exact List.mem_cons_self c0 cs
      simp only [findRecipeByProduct, hfil]
      rcases hfa : (c0 :: cs).find? (fun r => r.alt) with _ | a
      · rcases hfs : (c0 :: cs).find? (fun r => !r.alt) with _ | s
        · refine ⟨c0, ?_, ((hmem c0).mp hc0).1, ((hmem c0).mp hc0).2, ?_, ?_⟩
          · cases alt <;> simp [hfa, hfs]
          · intro _ ⟨a, ha, han, haa⟩
            have : a ∈ (c0 :: cs) := by
              rw [← hfil]
              exact (hmem a).mpr ⟨ha, han⟩
            have := List.find?_eq_none.mp hfa a this
            simp [haa] at this
          · intro _ _
            have := List.find?_eq_none.mp hfa c0 (List.mem_cons_self c0 cs)
            simpa using this
        · have hsmem : s ∈ recipes.filter (fun r => r.product.name == name) := by
            rw [hfil]
            exact List.mem_of_find?_eq_some hfs
          have hsp : s.alt = false := by
            have := List.find?_some hfs
            simpa using this
          cases alt
          · refine ⟨s, ?_, ((hmem s).mp hsmem).1, ((hmem s).mp hsmem).2, ?_, ?_⟩
            · simp [hfa, hfs]
            · intro h
              exact absurd h (by simp)
            · intro _ _
              exact hsp
          · refine ⟨s, ?_, ((hmem s).mp hsmem).1, ((hmem s).mp hsmem).2, ?_, ?_⟩
            · simp [hfa, hfs]
            · intro _ ⟨a, ha, han, haa⟩
              have : a ∈ (c0 :: cs) := by
                rw [← hfil]
                exact (hmem a).mpr ⟨ha, han⟩
              have := List.find?_eq_none.mp hfa a this
              simp [haa] at this
            · intro h
              exact absurd h (by simp)
      · have hamem : a ∈ recipes.filter (fun r => r.product.name == name) := by
          rw [hfil]
          exact List.mem_of_find?_eq_some hfa
        have hap : a.alt = true := by
          have := List.find?_some hfa
          simpa using this
        cases alt
        · rcases hfs : (c0 :: cs).find? (fun r => !r.alt) with _ | s
          · refine ⟨a, ?_, ((hmem a).mp hamem).1, ((hmem a).mp hamem).2, ?_, ?_⟩
            · simp [hfa, hfs]
            · intro h
              exact absurd h (by simp)
            · intro _ ⟨s, hs, hsn, hss⟩
              have : s ∈ (c0 :: cs) := by
                rw [← hfil]
                exact (hmem s).mpr ⟨hs, hsn⟩
              have := List.find?_eq_none.mp hfs s this
              simp [hss] at this
          · have hsmem : s ∈ recipes.filter (fun r => r.product.name == name) := by
              rw [hfil]
              exact List.mem_of_find?_eq_some hfs
            have hsp : s.alt = false := by
              have := List.find?_some hfs
              simpa using this
            refine ⟨s, ?_, ((hmem s).mp hsmem).1, ((hmem s).mp hsmem).2, ?_, ?_⟩
            · simp [hfa, hfs]
            · intro h
              exact absurd h (by simp)
            · intro _ _
              exact hsp
        · refine ⟨a, ?_, ((hmem a).mp hamem).1, ((hmem a).mp hamem).2, ?_, ?_⟩
          · simp [hfa]
          · intro _ _
            exact hap
          · intro h
            exact absurd h (by simp)

/-- Witness for C2 at a concrete catalog holding one standard and one
alternate recipe for `"X"`: the flag selects the matching kind. -/
theorem findRecipe_selection_witness :
    (∃ r, findRecipeByProduct catC2 "X" true = some r ∧ r.alt = true) ∧
    (∃ r, findRecipeByProduct catC2 "X" false = some r ∧ r.alt = false) := by
  refine ⟨?_, ?_⟩
  · obtain ⟨r, hr, _, _, halt, _⟩ :=
      (findRecipe_selection catC2 "X" true).2 rStdX (by decide) (by decide)
    exact ⟨r, hr, halt rfl ⟨rAltX, by decide, by decide, by decide⟩⟩
  · obtain ⟨r, hr, _, _, _, hstd⟩ :=
      (findRecipe_selection catC2 "X" false).2 rStdX (by decide) (by decide)
    exact ⟨r, hr, hstd rfl ⟨rStdX, by decide, by decide, by decide⟩⟩

/-- Case-split form of `minBeltMkFor` over the concrete speed table. -/
theorem minBeltMkFor_eq (rate : ℚ) :
    minBeltMkFor rate =
      if rate ≤ 60 then 1 else if rate ≤ 120 then 2 else if rate ≤ 270 then 3
      else if rate ≤ 480 then 4 else 5 := by
  simp only [minBeltMkFor, BELT_SPEEDS, findIndexP]
  by_cases h1 : rate ≤ 60 <;> by_cases h2 : rate ≤ 120 <;> by_cases h3 : rate ≤ 270 <;>
    by_cases h4 : rate ≤ 480 <;> by_cases h5 : rate ≤ 780 <;>
      simp [h1, h2, h3, h4, h5]

/-- C4: `minBeltMkFor` returns a tier in 1..5; within the table it is the
smallest tier whose capacity covers the rate; above the top capacity it
clamps to tier 5; and the four boundary examples from the specification
hold. -/
theorem minBeltMk_spec (rate : ℚ) :
    (1 ≤ minBeltMkFor rate ∧ minBeltMkFor rate ≤ 5) ∧
    (rate ≤ 780 →
      rate ≤ beltCap (minBeltMkFor rate) ∧
      ∀ k, 1 ≤ k → rate ≤ beltCap k → minBeltMkFor rate ≤ k) ∧
    (780 < rate → minBeltMkFor rate = 5) ∧
    minBeltMkFor 60 = 1 ∧ minBeltMkFor (600001 / 10000) = 2 ∧
    minBeltMkFor 780 = 5 ∧ minBeltMkFor 900 = 5 := by
  have hcap : ∀ k, 1 ≤ k → k ≤ 5 → beltCap k = BELT_SPEEDS.getD (k - 1) 0 := by
    intro k _ _
    rfl
  refine ⟨?_, ?_, ?_, by decide, by decide, by decide, by decide⟩
  · rw [minBeltMkFor_eq]
    by_cases h1 : rate ≤ 60 <;> by_cases h2 : rate ≤ 120 <;> by_cases h3 : rate ≤ 270 <;>
      by_cases h4 : rate ≤ 480 <;> simp [h1, h2, h3, h4]
  · intro h5
    constructor
    · rw [minBeltMkFor_eq]
      by_cases h1 : rate ≤ 60 <;> by_cases h2 : rate ≤ 120 <;> by_cases h3 : rate ≤ 270 <;>
        by_cases h4 : rate ≤ 480 <;>
          (simp [h1, h2, h3, h4, beltCap, BELT_SPEEDS]; try linarith)
    · intro k hk1 hkcap
      rw [minBeltMkFor_eq]
      rcases k with _ | _ | _ | _ | _ | k
      · omega
      · have : rate ≤ 60 := by simpa [beltCap, BELT_SPEEDS] using hkcap
        simp [this]
      · have : rate ≤ 120 := by simpa [beltCap, BELT_SPEEDS] using hkcap
        by_cases h1 : rate ≤ 60 <;> simp [h1, this]
      · have : rate ≤ 270 := by simpa [beltCap, BELT_SPEEDS] using hkcap
        by_cases h1 : rate ≤ 60 <;> by_cases h2 : rate ≤ 120 <;> simp [h1, h2, this]
      · have : rate ≤ 480 := by simpa [beltCap, BELT_SPEEDS] using hkcap
        by_cases h1 : rate ≤ 60 <;> by_cases h2 : rate ≤ 120 <;>
          by_cases h3 : rate ≤ 270 <;> simp [h1, h2, h3, this]
      · by_cases h1 : rate ≤ 60 <;> by_cases h2 : rate ≤ 120 <;>
          by_cases h3 : rate ≤ 270 <;> by_cases h4 : rate ≤ 480 <;>
            simp [h1, h2, h3, h4]
  · intro hover
    rw [minBeltMkFor_eq]
    have h1 : ¬ rate ≤ 60 := by linarith
    have h2 : ¬ rate ≤ 120 := by linarith
    have h3 : ¬ rate ≤ 270 := by linarith
    have h4 : ¬ rate ≤ 480 := by linarith
    simp [h1, h2, h3, h4]

/-- Witness for C4: the overflow clause applied at rate 900, and the exact
boundary at 60. -/
theorem minBeltMk_spec_witness :
    minBeltMkFor 900 = 5 ∧ minBeltMkFor 60 = 1 :=
  ⟨(minBeltMk_spec 900).2.2.1 (by norm_num), (minBeltMk_spec 60).2.2.2.1⟩

/-- C8 counterexample: in the §8 scenario (target recipe 30/min, requested
at 30/min), the root DemandNode's `machines` is `30 / 30 = 1`, not the
claimed 2. -/
theorem scenario30_root_machines_counterexample :
    (buildChainF catC8 false 10 "Target" 30).map (Option.map Node.machines) =
      some (some 1) ∧ (1 : ℚ) ≠ 2 :=
  ⟨by decide, by norm_num⟩

/-- C8 amended: the scenario yields a root DemandNode with `machines = 1`
(= 30/30), one child DemandNode with `machines = 2` (= 30/15), and
`collectEdges` returns exactly one Edge, of rate 30. -/
theorem scenario30_amended :
    (buildChainF catC8 false 10 "Target" 30).isSome = true ∧
    (buildChainF catC8 false 10 "Target" 30).map (Option.map (fun n =>
      (n.machines,
       n.inputs.map (fun slot => slot.2.2.map Node.machines),
       (collectEdges n).map Edge.rate))) =
      some (some (1, [some 2], [30])) :=
  ⟨by decide, by decide⟩

/-- C10: `runPlanner` frames the board. Every entity present before a
successful run that carries no planner back-reference (`meta.node = none`)
survives it as the same record — same position, rotation and footprint —
and any entity the run removes carried a planner back-reference (it was a
machine generated by a previous planning run). -/
theorem runPlanner_frame (recipes : List Recipe) (fuel g : ℕ)
    (entities : List PlacedEntity) (item : String) (rate : ℚ) (alt : Bool)
    (seed : ℕ) (ents' : List PlacedEntity) (belts : List Belt)
    (buses : List (String × ℚ))
    (hrun : runPlanner recipes fuel g entities item rate alt seed =
      some (ents', belts, buses)) :
    (∀ e ∈ entities, e.meta.node = none → e ∈ ents') ∧
    (∀ e ∈ entities, e ∉ ents' → e.meta.node ≠ none) := by
  have hkeep : ∀ e ∈ entities, e.meta.node = none → e ∈ ents' := by
    intro e he hnode
    unfold runPlanner at hrun
    by_cases hi : item == ""
    · rw [if_pos hi] at hrun
      exact absurd hrun (by simp)
    · rw [if_neg hi] at hrun
      rcases hb : buildChainF recipes alt fuel item rate with _ | oc
      · rw [hb] at hrun
        exact absurd hrun (by simp)
      · rcases oc with _ | chain
        · rw [hb] at hrun
          exact absurd hrun (by simp)
        · rw [hb] at hrun
          dsimp only at hrun
          have hents : ents' =
              (entities.filter (fun e => e.meta.node.isNone) ++
                (autoLayout g chain 8 8 seed).1) ++
              (planBeltsWithJunctions g
                (entities.filter (fun e => e.meta.node.isNone) ++
                  (autoLayout g chain 8 8 seed).1) chain
                (autoLayout g chain 8 8 seed).2).2.1 := by
            have := Option.some.inj hrun
            exact (congrArg Prod.fst this).symm
          rw [hents]
          refine List.mem_append_left _ (List.mem_append_left _ ?_)
          exact List.mem_filter.mpr ⟨he, by simp [hnode]⟩
  refine ⟨hkeep, ?_⟩
  intro e he hnot hnode
  exact hnot (hkeep e he hnode)

/-- Witness for C10: a concrete run over a board holding one manual entity
keeps that entity verbatim. -/
theorem runPlanner_frame_witness :
    runPlanner catC5 3 1 [entManual] "Plate" 30 false 0 =
      some ([entManual, plateEnt], [], []) ∧
    entManual ∈ [entManual, plateEnt] :=
  ⟨rfl,
   (runPlanner_frame catC5 3 1 [entManual] "Plate" 30 false 0
      [entManual, plateEnt] [] [] rfl).1 entManual (by simp) rfl⟩

/-! ### Association-map and junction-state lemmas (towards C6 and C3) -/

theorem lookupJ_append_some {m : List (ℕ × PlacedEntity)} {k : ℕ} {v : PlacedEntity}
    (p : ℕ × PlacedEntity) (h : lookupJ m k = some v) :
    lookupJ (m ++ [p]) k = some v := by
  unfold lookupJ at h ⊢
  rcases hf : m.find? (fun q => q.1 == k) with _ | q
  · rw [hf] at h
    simp at h
  · rw [List.find?_append, hf]
    rw [hf] at h
    exact h

theorem lookupJ_append_new {m : List (ℕ × PlacedEntity)} {k : ℕ}
    (v : PlacedEntity) (h : lookupJ m k = none) :
    lookupJ (m ++ [(k, v)]) k = some v := by
  unfold lookupJ at h ⊢
  rcases hf : m.find? (fun q => q.1 == k) with _ | q
  · rw [List.find?_append, hf]
    simp
  · rw [hf] at h
    simp at h

theorem lookupJ_none_not_key {m : List (ℕ × PlacedEntity)} {k : ℕ}
    (h : lookupJ m k = none) : k ∉ m.map Prod.fst := by
  unfold lookupJ at h
  rcases hf : m.find? (fun q => q.1 == k) with _ | q
  · intro hmem
    rcases List.mem_map.mp hmem with ⟨p, hp, hpk⟩
    have := List.find?_eq_none.mp hf p hp
    simp [hpk] at this
  · rw [hf] at h
    simp at h

theorem keys_nodup_append {m : List (ℕ × PlacedEntity)} {k : ℕ} (v : PlacedEntity)
    (h : lookupJ m k = none) (hnd : (m.map Prod.fst).Nodup) :
    ((m ++ [(k, v)]).map Prod.fst).Nodup := by
  rw [List.map_append]
  simp only [List.map_cons, List.map_nil]
  rw [List.nodup_append]
  exact ⟨hnd, List.nodup_singleton k, by
    intro a ha hb
    simp at hb
    subst hb
    exact lookupJ_none_not_key h ha⟩

/-- The four belt-pushing helpers only touch `belts` and `nextId`. -/
theorem pushBelt_state (st : PlanState) (r : ℚ) (it : String) (s d : Point) :
    (pushBelt st r it s d).extras = st.extras ∧
    (pushBelt st r it s d).obstacles = st.obstacles ∧
    (pushBelt st r it s d).splitterByProdId = st.splitterByProdId ∧
    (pushBelt st r it s d).mergerByConsId = st.mergerByConsId :=
  ⟨rfl, rfl, rfl, rfl⟩

theorem fanOutBelts_state (split : PlacedEntity) (r : ℚ) (it : String) (ii : ℕ) :
    ∀ (l : List PlacedEntity) (j : ℕ) (st : PlanState),
    (fanOutBelts split r it ii l j st).extras = st.extras ∧
    (fanOutBelts split r it ii l j st).obstacles = st.obstacles ∧
    (fanOutBelts split r it ii l j st).splitterByProdId = st.splitterByProdId ∧
    (fanOutBelts split r it ii l j st).mergerByConsId = st.mergerByConsId := by
  intro l
  induction l with
  | nil => intro j st; exact ⟨rfl, rfl, rfl, rfl⟩
  | cons c rest ih =>
    intro j st
    exact ih (j + 1) _

theorem fanInBelts_state (merge : PlacedEntity) (r : ℚ) (it : String) :
    ∀ (l : List PlacedEntity) (j : ℕ) (st : PlanState),
    (fanInBelts merge r it l j st).extras = st.extras ∧
    (fanInBelts merge r it l j st).obstacles = st.obstacles ∧
    (fanInBelts merge r it l j st).splitterByProdId = st.splitterByProdId ∧
    (fanInBelts merge r it l j st).mergerByConsId = st.mergerByConsId := by
  intro l
  induction l with
  | nil => intro j st; exact ⟨rfl, rfl, rfl, rfl⟩
  | cons c rest ih =>
    intro j st
    exact ih (j + 1) _

theorem meshRow_state (s : PlacedEntity) (r : ℚ) (it : String) :
    ∀ (l : List PlacedEntity) (k : ℕ) (st : PlanState),
    (meshBelts.meshRow s r it l k st).extras = st.extras ∧
    (meshBelts.meshRow s r it l k st).obstacles = st.obstacles ∧
    (meshBelts.meshRow s r it l k st).splitterByProdId = st.splitterByProdId ∧
    (meshBelts.meshRow s r it l k st).mergerByConsId = st.mergerByConsId := by
  intro l
  induction l with
  | nil => intro k st; exact ⟨rfl, rfl, rfl, rfl⟩
  | cons c rest ih =>
    intro k st
    exact ih (k + 1) _

theorem meshBelts_state (r : ℚ) (it : String) (mergers : List PlacedEntity) :
    ∀ (l : List PlacedEntity) (st : PlanState),
    (meshBelts r it mergers l st).extras = st.extras ∧
    (meshBelts r it mergers l st).obstacles = st.obstacles ∧
    (meshBelts r it mergers l st).splitterByProdId = st.splitterByProdId ∧
    (meshBelts r it mergers l st).mergerByConsId = st.mergerByConsId := by
  intro l
  induction l with
  | nil => intro st; exact ⟨rfl, rfl, rfl, rfl⟩
  | cons c rest ih =>
    intro st
    obtain ⟨h1, h2, h3, h4⟩ := ih (meshBelts.meshRow c r it mergers 0 st)
    obtain ⟨g1, g2, g3, g4⟩ := meshRow_state c r it mergers 0 st
    exact ⟨h1.trans g1, h2.trans g2, h3.trans g3, h4.trans g4⟩

theorem makeSplitters_mono (g : ℕ) (r : ℚ) (it : String) :
    ∀ (producers : List PlacedEntity) (st : PlanState) (acc : List PlacedEntity),
    (makeSplitters g r it producers st acc).1.mergerByConsId = st.mergerByConsId ∧
    (∀ k v, lookupJ st.splitterByProdId k = some v →
      lookupJ (makeSplitters g r it producers st acc).1.splitterByProdId k = some v) := by
  intro producers
  induction producers with
  | nil =>
    intro st acc
    exact ⟨rfl, fun k v hv => hv⟩
  | cons p rest ih =>
    intro st acc
    rcases hl : lookupJ st.splitterByProdId p.id with _ | s
    · simp only [makeSplitters, hl]
      obtain ⟨h1, h2⟩ := ih _ _
      refine ⟨h1.trans rfl, fun k v hv => h2 k v ?_⟩
      exact lookupJ_append_some _ hv
    · simp only [makeSplitters, hl]
      exact ih _ _

theorem makeMergers_mono (g : ℕ) (r : ℚ) (it : String) (ii : ℕ) :
    ∀ (consumers : List PlacedEntity) (st : PlanState) (acc : List PlacedEntity),
    (makeMergers g r it ii consumers st acc).1.splitterByProdId = st.splitterByProdId ∧
    (∀ k v, lookupJ st.mergerByConsId k = some v →
      lookupJ (makeMergers g r it ii consumers st acc).1.mergerByConsId k = some v) := by
  intro consumers
  induction consumers with
  | nil =>
    intro st acc
    exact ⟨rfl, fun k v hv => hv⟩
  | cons p rest ih =>
    intro st acc
    rcases hl : lookupJ st.mergerByConsId p.id with _ | s
    · simp only [makeMergers, hl]
      obtain ⟨h1, h2⟩ := ih _ _
      refine ⟨h1.trans rfl, fun k v hv => h2 k v ?_⟩
      exact lookupJ_append_some _ hv
    · simp only [makeMergers, hl]
      exact ih _ _

theorem makeSplitters_jinv (g : ℕ) (r : ℚ) (it : String) :
    ∀ (producers : List PlacedEntity) (st : PlanState) (acc : List PlacedEntity),
    JInv st → JInv (makeSplitters g r it producers st acc).1 := by
  intro producers
  induction producers with
  | nil =>
    intro st acc h
    exact h
  | cons p rest ih =>
    intro st acc h
    rcases hl : lookupJ st.splitterByProdId p.id with _ | s
    · simp only [makeSplitters, hl]
      apply ih
      obtain ⟨hs, hm, hes, hem⟩ := h
      refine ⟨?_, hm, ?_, ?_⟩
      · exact keys_nodup_append _ hl hs
      · simp only [pushBelt, List.filter_append, List.map_append]
        rw [hes]
        rfl
      · simp only [pushBelt, List.filter_append]
        rw [hem]
        simp [placeSplitterNear]
    · simp only [makeSplitters, hl]
      exact ih _ _ h

theorem makeMergers_jinv (g : ℕ) (r : ℚ) (it : String) (ii : ℕ) :
    ∀ (consumers : List PlacedEntity) (st : PlanState) (acc : List PlacedEntity),
    JInv st → JInv (makeMergers g r it ii consumers st acc).1 := by
  intro consumers
  induction consumers with
  | nil =>
    intro st acc h
    exact h
  | cons p rest ih =>
    intro st acc h
    rcases hl : lookupJ st.mergerByConsId p.id with _ | s
    · simp only [makeMergers, hl]
      apply ih
      obtain ⟨hs, hm, hes, hem⟩ := h
      refine ⟨hs, ?_, ?_, ?_⟩
      · exact keys_nodup_append _ hl hm
      · simp only [pushBelt, List.filter_append]
        rw [hes]
        simp [placeMergerNear]
      · simp only [pushBelt, List.filter_append, List.map_append]
        rw [hem]
        rfl
    · simp only [makeMergers, hl]
      exact ih _ _ h

theorem busTouch_maps (g : ℕ) (xr : ℚ × ℚ) (it : String) (st : PlanState) :
    (busTouch g xr it st).splitterByProdId = st.splitterByProdId ∧
    (busTouch g xr it st).mergerByConsId = st.mergerByConsId ∧
    (busTouch g xr it st).extras = st.extras ∧
    (busTouch g xr it st).obstacles = st.obstacles :=
  ⟨rfl, rfl, rfl, rfl⟩

theorem fanOutCase_mono (g : ℕ) (e : Edge) (producers consumers : List PlacedEntity)
    (st : PlanState) :
    (∀ k v, lookupJ st.splitterByProdId k = some v →
      lookupJ (fanOutCase g e producers consumers st).splitterByProdId k = some v) ∧
    (fanOutCase g e producers consumers st).mergerByConsId = st.mergerByConsId := by
  unfold fanOutCase
  rcases hl : lookupJ st.splitterByProdId (headEnt producers).id with _ | s
  · simp only [hl]
    obtain ⟨-, -, h3, h4⟩ := fanOutBelts_state _ _ _ _ consumers 0 _
    rw [h3, h4]
    simp only [pushBelt]
    exact ⟨fun k v hv => lookupJ_append_some _ hv, by trivial⟩
  · simp only [hl]
    obtain ⟨-, -, h3, h4⟩ := fanOutBelts_state _ _ _ _ consumers 0 st
    rw [h3, h4]
    exact ⟨fun k v hv => hv, rfl⟩

theorem fanInCase_mono (g : ℕ) (e : Edge) (producers consumers : List PlacedEntity)
    (st : PlanState) :
    (fanInCase g e producers consumers st).splitterByProdId = st.splitterByProdId ∧
    (∀ k v, lookupJ st.mergerByConsId k = some v →
      lookupJ (fanInCase g e producers consumers st).mergerByConsId k = some v) := by
  unfold fanInCase
  rcases hl : lookupJ st.mergerByConsId (headEnt consumers).id with _ | s
  · simp only [hl]
    obtain ⟨-, -, h3, h4⟩ := fanInBelts_state _ _ _ producers 0 _
    rw [h3, h4]
    simp only [pushBelt]
    exact ⟨by trivial, fun k v hv => lookupJ_append_some _ hv⟩
  · simp only [hl]
    obtain ⟨-, -, h3, h4⟩ := fanInBelts_state _ _ _ producers 0 st
    rw [h3, h4]
    exact ⟨rfl, fun k v hv => hv⟩

theorem meshCase_mono (g : ℕ) (e : Edge) (producers consumers : List PlacedEntity)
    (st : PlanState) :
    (∀ k v, lookupJ st.splitterByProdId k = some v →
      lookupJ (meshCase g e producers consumers st).splitterByProdId k = some v) ∧
    (∀ k v, lookupJ st.mergerByConsId k = some v →
      lookupJ (meshCase g e producers consumers st).mergerByConsId k = some v) := by
  unfold meshCase
  obtain ⟨-, -, hm3, hm4⟩ := meshBelts_state (e.rate / (max 1 producers.length : ℕ) /
    ((makeMergers g (e.rate / consumers.length) e.item e.inputIndex consumers
      (makeSplitters g (e.rate / producers.length) e.item producers st []).1 []).2.length : ℕ))
    e.item _ _ _
  rw [hm3, hm4]
  obtain ⟨hmm1, hmm2⟩ := makeMergers_mono g (e.rate / consumers.length) e.item e.inputIndex
    consumers (makeSplitters g (e.rate / producers.length) e.item producers st []).1 []
  obtain ⟨hms1, hms2⟩ := makeSplitters_mono g (e.rate / producers.length) e.item producers st []
  rw [hmm1]
  constructor
  · intro k v hv
    exact hms2 k v hv
  · intro k v hv
    rw [hms1] at hmm2
    exact hmm2 k v hv

theorem processEdge_mono (g : ℕ) (xr : ℚ × ℚ) (st : PlanState) (e : Edge) :
    (∀ k v, lookupJ st.splitterByProdId k = some v →
      lookupJ (processEdge g xr st e).splitterByProdId k = some v) ∧
    (∀ k v, lookupJ st.mergerByConsId k = some v →
      lookupJ (processEdge g xr st e).mergerByConsId k = some v) := by
  unfold processEdge
  by_cases h0 : (entitiesForNode st.obstacles e.sourceN).length = 0 ∨
      (entitiesForNode st.obstacles e.targetN).length = 0
  · rw [if_pos h0]
    exact ⟨fun k v hv => hv, fun k v hv => hv⟩
  · rw [if_neg h0]
    dsimp only
    by_cases h1 : (entitiesForNode st.obstacles e.sourceN).length = 1 ∧
        (entitiesForNode st.obstacles e.targetN).length > 1
    · rw [if_pos h1]
      obtain ⟨ha, hb⟩ := fanOutCase_mono g e _ _ (busTouch g xr e.item st)
      rw [hb]
      exact ⟨ha, fun k v hv => hv⟩
    · rw [if_neg h1]
      by_cases h2 : (entitiesForNode st.obstacles e.sourceN).length > 1 ∧
          (entitiesForNode st.obstacles e.targetN).length = 1
      · rw [if_pos h2]
        obtain ⟨ha, hb⟩ := fanInCase_mono g e _ _ (busTouch g xr e.item st)
        rw [ha]
        exact ⟨fun k v hv => hv, hb⟩
      · rw [if_neg h2]
        by_cases h3 : (entitiesForNode st.obstacles e.sourceN).length > 1 ∧
            (entitiesForNode st.obstacles e.targetN).length > 1
        · rw [if_pos h3]
          exact meshCase_mono g e _ _ (busTouch g xr e.item st)
        · rw [if_neg h3]
          exact ⟨fun k v hv => hv, fun k v hv => hv⟩

theorem fanOutCase_jinv (g : ℕ) (e : Edge) (producers consumers : List PlacedEntity)
    (st : PlanState) (h : JInv st) : JInv (fanOutCase g e producers consumers st) := by
  unfold fanOutCase
  rcases hl : lookupJ st.splitterByProdId (headEnt producers).id with _ | s
  · simp only [hl]
    obtain ⟨f1, f2, f3, f4⟩ := fanOutBelts_state (placeSplitterNear g (headEnt producers)
      st.obstacles st.nextId) (e.rate / consumers.length) e.item e.inputIndex consumers 0 _
    obtain ⟨hs, hm, hes, hem⟩ := h
    refine ⟨?_, ?_, ?_, ?_⟩
    · rw [f3]
      simp only [pushBelt]
      exact keys_nodup_append _ hl hs
    · rw [f4]
      simp only [pushBelt]
      exact hm
    · rw [f1, f3]
      simp only [pushBelt, List.filter_append, List.map_append]
      rw [hes]
      rfl
    · rw [f1, f4]
      simp only [pushBelt, List.filter_append]
      rw [hem]
      simp [placeSplitterNear]
  · simp only [hl]
    obtain ⟨f1, f2, f3, f4⟩ := fanOutBelts_state s (e.rate / consumers.length)
      e.item e.inputIndex consumers 0 st
    obtain ⟨hs, hm, hes, hem⟩ := h
    exact ⟨f3 ▸ hs, f4 ▸ hm, by rw [f1, f3]; exact hes, by rw [f1, f4]; exact hem⟩

theorem fanInCase_jinv (g : ℕ) (e : Edge) (producers consumers : List PlacedEntity)
    (st : PlanState) (h : JInv st) : JInv (fanInCase g e producers consumers st) := by
  unfold fanInCase
  rcases hl : lookupJ st.mergerByConsId (headEnt consumers).id with _ | m
  · simp only [hl]
    obtain ⟨f1, f2, f3, f4⟩ := fanInBelts_state (placeMergerNear g (headEnt consumers)
      st.obstacles st.nextId) (e.rate / producers.length) e.item producers 0 _
    obtain ⟨hs, hm, hes, hem⟩ := h
    refine ⟨?_, ?_, ?_, ?_⟩
    · rw [f3]
      simp only [pushBelt]
      exact hs
    · rw [f4]
      simp only [pushBelt]
      exact keys_nodup_append _ hl hm
    · rw [f1, f3]
      simp only [pushBelt, List.filter_append]
      rw [hes]
      simp [placeMergerNear]
    · rw [f1, f4]
      simp only [pushBelt, List.filter_append, List.map_append]
      rw [hem]
      rfl
  · simp only [hl]
    obtain ⟨f1, f2, f3, f4⟩ := fanInBelts_state m (e.rate / producers.length)
      e.item producers 0 st
    obtain ⟨hs, hm, hes, hem⟩ := h
    exact ⟨f3 ▸ hs, f4 ▸ hm, by rw [f1, f3]; exact hes, by rw [f1, f4]; exact hem⟩

theorem meshCase_jinv (g : ℕ) (e : Edge) (producers consumers : List PlacedEntity)
    (st : PlanState) (h : JInv st) : JInv (meshCase g e producers consumers st) := by
  have hms := makeSplitters_jinv g (e.rate / producers.length) e.item producers st [] h
  have hmm := makeMergers_jinv g (e.rate / consumers.length) e.item e.inputIndex consumers
    (makeSplitters g (e.rate / producers.length) e.item producers st []).1 [] hms
  obtain ⟨hs, hm, hes, hem⟩ := hmm
  unfold meshCase
  dsimp only
  obtain ⟨m1, m2, m3, m4⟩ := meshBelts_state (e.rate / (max 1 producers.length : ℕ) /
    ((makeMergers g (e.rate / consumers.length) e.item e.inputIndex consumers
      (makeSplitters g (e.rate / producers.length) e.item producers st []).1 []).2.length : ℕ))
    e.item
    (makeMergers g (e.rate / consumers.length) e.item e.inputIndex consumers
      (makeSplitters g (e.rate / producers.length) e.item producers st []).1 []).2
    (makeSplitters g (e.rate / producers.length) e.item producers st []).2
    (makeMergers g (e.rate / consumers.length) e.item e.inputIndex consumers
      (makeSplitters g (e.rate / producers.length) e.item producers st []).1 []).1
  refine ⟨?_, ?_, ?_, ?_⟩
  · rw [m3]
    exact hs
  · rw [m4]
    exact hm
  · rw [m1, m3]
    exact hes
  · rw [m1, m4]
    exact hem

theorem processEdge_jinv (g : ℕ) (xr : ℚ × ℚ) (st : PlanState) (e : Edge)
    (h : JInv st) : JInv (processEdge g xr st e) := by
  have hbus : JInv (busTouch g xr e.item st) := by
    obtain ⟨hs, hm, hes, hem⟩ := h
    exact ⟨hs, hm, hes, hem⟩
  unfold processEdge
  by_cases h0 : (entitiesForNode st.obstacles e.sourceN).length = 0 ∨
      (entitiesForNode st.obstacles e.targetN).length = 0
  · rw [if_pos h0]
    exact h
  · rw [if_neg h0]
    dsimp only
    by_cases h1 : (entitiesForNode st.obstacles e.sourceN).length = 1 ∧
        (entitiesForNode st.obstacles e.targetN).length > 1
    · rw [if_pos h1]
      exact fanOutCase_jinv g e _ _ _ hbus
    · rw [if_neg h1]
      by_cases h2 : (entitiesForNode st.obstacles e.sourceN).length > 1 ∧
          (entitiesForNode st.obstacles e.targetN).length = 1
      · rw [if_pos h2]
        exact fanInCase_jinv g e _ _ _ hbus
      · rw [if_neg h2]
        by_cases h3 : (entitiesForNode st.obstacles e.sourceN).length > 1 ∧
            (entitiesForNode st.obstacles e.targetN).length > 1
        · rw [if_pos h3]
          exact meshCase_jinv g e _ _ _ hbus
        · rw [if_neg h3]
          obtain ⟨hs, hm, hes, hem⟩ := hbus
          exact ⟨hs, hm, hes, hem⟩

theorem planBeltsState_jinv (g : ℕ) (ents : List PlacedEntity) (root : Node)
    (seed : ℕ) : JInv (planBeltsState g ents root seed) := by
  unfold planBeltsState
  generalize collectEdges root = edges
  have h0 : JInv (⟨[], [], ents, [], [], [], [], seed⟩ : PlanState) :=
    ⟨List.nodup_nil, List.nodup_nil, rfl, rfl⟩
  generalize hst : (⟨[], [], ents, [], [], [], [], seed⟩ : PlanState) = st0
  rw [hst] at h0
  clear hst
  induction edges generalizing st0 with
  | nil => exact h0
  | cons e rest ih =>
    exact ih _ (processEdge_jinv g _ st0 e h0)

/-- C6: junction deduplication. In any `planBeltsWithJunctions` run the
splitter map binds pairwise-distinct producing-entity identities and the
merger map pairwise-distinct consuming-entity identities; the splitters and
mergers appended to `extras` are exactly the respective map values, so at
most one splitter (resp. merger) is ever created per owning entity; and
processing any further edge preserves every existing binding, so a later
edge referencing the same entity reuses that exact junction. -/
theorem junction_dedup (g : ℕ) (ents : List PlacedEntity) (root : Node) (seed : ℕ) :
    (((planBeltsState g ents root seed).splitterByProdId.map Prod.fst).Nodup ∧
     ((planBeltsState g ents root seed).mergerByConsId.map Prod.fst).Nodup ∧
     (planBeltsState g ents root seed).extras.filter (fun e => e.type == .splitter) =
       (planBeltsState g ents root seed).splitterByProdId.map Prod.snd ∧
     (planBeltsState g ents root seed).extras.filter (fun e => e.type == .merger) =
       (planBeltsState g ents root seed).mergerByConsId.map Prod.snd) ∧
    (∀ (xr : ℚ × ℚ) (st : PlanState) (e : Edge) (k : ℕ) (v : PlacedEntity),
      (lookupJ st.splitterByProdId k = some v →
        lookupJ (processEdge g xr st e).splitterByProdId k = some v) ∧
      (lookupJ st.mergerByConsId k = some v →
        lookupJ (processEdge g xr st e).mergerByConsId k = some v)) := by
  refine ⟨planBeltsState_jinv g ents root seed, ?_⟩
  intro xr st e k v
  obtain ⟨ha, hb⟩ := processEdge_mono g xr st e
  exact ⟨ha k v, hb k v⟩

/-- Witness for C6: a state already holding a splitter for entity 1 keeps
that exact binding across the processing of an edge that references it. -/
theorem junction_dedup_witness :
    lookupJ (processEdge 1 (busXRange entsC3)
        ⟨[], [], entsC3, [(1, splitC6)], [], [], [], 200⟩
        ⟨nodeA3, rootC3, 0, 120, "ItemA"⟩).splitterByProdId 1 = some splitC6 :=
  ((junction_dedup 1 entsC3 rootC3 200).2 (busXRange entsC3)
    ⟨[], [], entsC3, [(1, splitC6)], [], [], [], 200⟩
    ⟨nodeA3, rootC3, 0, 120, "ItemA"⟩ 1 splitC6).1 rfl

/-! ### Belt-rate bookkeeping lemmas (towards C3) -/

theorem lookupJ_append_ne {m : List (ℕ × PlacedEntity)} {k k' : ℕ} (v : PlacedEntity)
    (h : k' ≠ k) : lookupJ (m ++ [(k, v)]) k' = lookupJ m k' := by
  unfold lookupJ
  rw [List.find?_append]
  rcases hf' : m.find? (fun q => q.1 == k') with _ | q'
  · have hk : (k == k') = false := by
      simp
      exact Ne.symm h
    simp [hf', List.find?, hk]
  · simp [hf']

theorem pushBelt_rates (st : PlanState) (r : ℚ) (it : String) (s d : Point) :
    (pushBelt st r it s d).belts.map Belt.rate = st.belts.map Belt.rate ++ [r] := by
  simp [pushBelt]

theorem fanOutBelts_rates (split : PlacedEntity) (r : ℚ) (it : String) (ii : ℕ) :
    ∀ (l : List PlacedEntity) (j : ℕ) (st : PlanState),
    (fanOutBelts split r it ii l j st).belts.map Belt.rate =
      st.belts.map Belt.rate ++ List.replicate l.length r := by
  intro l
  induction l with
  | nil => intro j st; simp [fanOutBelts]
  | cons c rest ih =>
    intro j st
    rw [fanOutBelts, ih, pushBelt_rates]
    simp [List.replicate_succ]

theorem fanInBelts_rates (merge : PlacedEntity) (r : ℚ) (it : String) :
    ∀ (l : List PlacedEntity) (j : ℕ) (st : PlanState),
    (fanInBelts merge r it l j st).belts.map Belt.rate =
      st.belts.map Belt.rate ++ List.replicate l.length r := by
  intro l
  induction l with
  | nil => intro j st; simp [fanInBelts]
  | cons c rest ih =>
    intro j st
    rw [fanInBelts, ih, pushBelt_rates]
    simp [List.replicate_succ]

theorem meshRow_rates (s : PlacedEntity) (r : ℚ) (it : String) :
    ∀ (l : List PlacedEntity) (k : ℕ) (st : PlanState),
    (meshBelts.meshRow s r it l k st).belts.map Belt.rate =
      st.belts.map Belt.rate ++ List.replicate l.length r := by
  intro l
  induction l with
  | nil => intro k st; simp [meshBelts.meshRow]
  | cons c rest ih =>
    intro k st
    rw [meshBelts.meshRow, ih, pushBelt_rates]
    simp [List.replicate_succ]

theorem meshBelts_rates (r : ℚ) (it : String) (mergers : List PlacedEntity) :
    ∀ (l : List PlacedEntity) (st : PlanState),
    (meshBelts r it mergers l st).belts.map Belt.rate =
      st.belts.map Belt.rate ++ List.replicate (l.length * mergers.length) r := by
  intro l
  induction l with
  | nil => intro st; simp [meshBelts]
  | cons c rest ih =>
    intro st
    rw [meshBelts, ih, meshRow_rates]
    rw [List.append_assoc, ← List.replicate_add]
    have hcount : mergers.length + rest.length * mergers.length =
        (c :: rest).length * mergers.length := by
      simp [List.length_cons]
      ring
    rw [hcount]

theorem makeSplitters_rates (g : ℕ) (r : ℚ) (it : String) :
    ∀ (producers : List PlacedEntity) (st : PlanState) (acc : List PlacedEntity),
    (producers.map PlacedEntity.id).Nodup →
    (makeSplitters g r it producers st acc).1.belts.map Belt.rate =
      st.belts.map Belt.rate ++
        (producers.filter (fun p => (lookupJ st.splitterByProdId p.id).isNone)).map
          (fun _ => r) ∧
    (makeSplitters g r it producers st acc).2.length = acc.length + producers.length := by
  intro producers
  induction producers with
  | nil =>
    intro st acc _
    exact ⟨by simp [makeSplitters], by simp [makeSplitters]⟩
  | cons p rest ih =>
    intro st acc hnd
    have hnd' : (rest.map PlacedEntity.id).Nodup := (List.nodup_cons.mp hnd).2
    have hpid : ∀ q ∈ rest, q.id ≠ p.id := by
      intro q hq hqid
      exact (List.nodup_cons.mp hnd).1 (hqid ▸ List.mem_map_of_mem PlacedEntity.id hq)
    rcases hl : lookupJ st.splitterByProdId p.id with _ | s
    · simp only [makeSplitters, hl]
      obtain ⟨ihb, ihl⟩ := ih _ (acc ++ [placeSplitterNear g p st.obstacles st.nextId]) hnd'
      constructor
      · rw [ihb]
        simp only [pushBelt]
        have hfc : rest.filter (fun q =>
            (lookupJ (st.splitterByProdId ++
              [(p.id, placeSplitterNear g p st.obstacles st.nextId)]) q.id).isNone) =
            rest.filter (fun q => (lookupJ st.splitterByProdId q.id).isNone) := by
          apply List.filter_congr
          intro q hq
          rw [lookupJ_append_ne _ (hpid q hq)]
        simp only [hfc]
        rw [List.filter_cons_of_pos (by simp [hl])]
        simp
      · rw [ihl]
        simp only [List.length_append, List.length_cons, List.length_nil]
        omega
    · simp only [makeSplitters, hl]
      obtain ⟨ihb, ihl⟩ := ih st (acc ++ [s]) hnd'
      constructor
      · rw [ihb]
        rw [List.filter_cons_of_neg (by simp [hl])]
      · rw [ihl]
        simp only [List.length_append, List.length_cons, List.length_nil]
        omega

theorem makeMergers_rates (g : ℕ) (r : ℚ) (it : String) (ii : ℕ) :
    ∀ (consumers : List PlacedEntity) (st : PlanState) (acc : List PlacedEntity),
    (consumers.map PlacedEntity.id).Nodup →
    (makeMergers g r it ii consumers st acc).1.belts.map Belt.rate =
      st.belts.map Belt.rate ++
        (consumers.filter (fun c => (lookupJ st.mergerByConsId c.id).isNone)).map
          (fun _ => r) ∧
    (makeMergers g r it ii consumers st acc).2.length = acc.length + consumers.length := by
  intro consumers
  induction consumers with
  | nil =>
    intro st acc _
    exact ⟨by simp [makeMergers], by simp [makeMergers]⟩
  | cons p rest ih =>
    intro st acc hnd
    have hnd' : (rest.map PlacedEntity.id).Nodup := (List.nodup_cons.mp hnd).2
    have hpid : ∀ q ∈ rest, q.id ≠ p.id := by
      intro q hq hqid
      exact (List.nodup_cons.mp hnd).1 (hqid ▸ List.mem_map_of_mem PlacedEntity.id hq)
    rcases hl : lookupJ st.mergerByConsId p.id with _ | s
    · simp only [makeMergers, hl]
      obtain ⟨ihb, ihl⟩ := ih _ (acc ++ [placeMergerNear g p st.obstacles st.nextId]) hnd'
      constructor
      · rw [ihb]
        simp only [pushBelt]
        have hfc : rest.filter (fun q =>
            (lookupJ (st.mergerByConsId ++
              [(p.id, placeMergerNear g p st.obstacles st.nextId)]) q.id).isNone) =
            rest.filter (fun q => (lookupJ st.mergerByConsId q.id).isNone) := by
          apply List.filter_congr
          intro q hq
          rw [lookupJ_append_ne _ (hpid q hq)]
        simp only [hfc]
        rw [List.filter_cons_of_pos (by simp [hl])]
        simp
      · rw [ihl]
        simp only [List.length_append, List.length_cons, List.length_nil]
        omega
    · simp only [makeMergers, hl]
      obtain ⟨ihb, ihl⟩ := ih st (acc ++ [s]) hnd'
      constructor
      · rw [ihb]
        rw [List.filter_cons_of_neg (by simp [hl])]
      · rw [ihl]
        simp only [List.length_append, List.length_cons, List.length_nil]
        omega

theorem fanOutCase_rates (g : ℕ) (e : Edge) (producers consumers : List PlacedEntity)
    (st : PlanState) :
    (fanOutCase g e producers consumers st).belts.map Belt.rate =
      st.belts.map Belt.rate ++
        (if (lookupJ st.splitterByProdId (headEnt producers).id).isSome then []
          else [e.rate]) ++
        List.replicate consumers.length (e.rate / consumers.length) := by
  unfold fanOutCase
  rcases hl : lookupJ st.splitterByProdId (headEnt producers).id with _ | s
  · simp only [hl]
    rw [fanOutBelts_rates, pushBelt_rates]
    simp
  · simp only [hl]
    rw [fanOutBelts_rates]
    simp

theorem fanInCase_rates (g : ℕ) (e : Edge) (producers consumers : List PlacedEntity)
    (st : PlanState) :
    (fanInCase g e producers consumers st).belts.map Belt.rate =
      st.belts.map Belt.rate ++
        (if (lookupJ st.mergerByConsId (headEnt consumers).id).isSome then []
          else [e.rate]) ++
        List.replicate producers.length (e.rate / producers.length) := by
  unfold fanInCase
  rcases hl : lookupJ st.mergerByConsId (headEnt consumers).id with _ | m
  · simp only [hl]
    rw [fanInBelts_rates, pushBelt_rates]
    simp
  · simp only [hl]
    rw [fanInBelts_rates]
    simp

theorem meshCase_rates (g : ℕ) (e : Edge) (producers consumers : List PlacedEntity)
    (st : PlanState) (hndp : (producers.map PlacedEntity.id).Nodup)
    (hndc : (consumers.map PlacedEntity.id).Nodup) :
    (meshCase g e producers consumers st).belts.map Belt.rate =
      st.belts.map Belt.rate ++
        (producers.filter (fun p => (lookupJ st.splitterByProdId p.id).isNone)).map
          (fun _ => e.rate / producers.length) ++
        (consumers.filter (fun c => (lookupJ st.mergerByConsId c.id).isNone)).map
          (fun _ => e.rate / consumers.length) ++
        List.replicate (producers.length * consumers.length)
          (e.rate / (max 1 producers.length : ℕ) / (consumers.length : ℚ)) := by
  unfold meshCase
  dsimp only
  obtain ⟨hsb, hsl⟩ := makeSplitters_rates g (e.rate / producers.length) e.item
    producers st [] hndp
  obtain ⟨hsm1, -⟩ := makeSplitters_mono g (e.rate / producers.length) e.item producers st []
  obtain ⟨hmb, hml⟩ := makeMergers_rates g (e.rate / consumers.length) e.item e.inputIndex
    consumers (makeSplitters g (e.rate / producers.length) e.item producers st []).1 [] hndc
  rw [meshBelts_rates, hmb, hsb, hsm1, hsl, hml]
  simp only [List.length_nil, Nat.zero_add, List.append_assoc]

theorem directCase_rates (e : Edge) (producers consumers : List PlacedEntity)
    (st : PlanState) :
    (directCase e producers consumers st).belts.map Belt.rate =
      st.belts.map Belt.rate ++ [e.rate] := by
  unfold directCase
  rw [pushBelt_rates]

theorem dropNew (A : List Belt) (X : List ℚ) :
    (A.map Belt.rate ++ X).drop A.length = X := by
  have h : A.length = (A.map Belt.rate).length := (List.length_map A Belt.rate).symm
  rw [h, List.drop_left]

theorem replicate_div_sum (n : ℕ) (T : ℚ) (h : 0 < n) :
    (List.replicate n (T / (n : ℚ))).sum = T := by
  rw [List.sum_replicate, nsmul_eq_mul, mul_comm, div_mul_cancel₀]
  exact Nat.cast_ne_zero.mpr (Nat.pos_iff_ne_zero.mp h)

/-- C3 amended: the per-edge rate distribution of the junction planner.
With `N` producer instances, `M` consumer instances and total rate `T`:
a 1→1 edge appends one link of rate `T`; a 1→M edge appends the
producer→splitter link of rate `T` only when the splitter is newly created
for this edge (an existing splitter is reused and its link keeps its
earlier rate) followed by `M` splitter→consumer links of rate `T/M`
summing to `T` exactly; an N→1 edge appends the merger→consumer link of
rate `T` only when the merger is newly created, followed by `N`
producer→merger links of rate `T/N` summing to `T`; an N→M edge appends
one `T/N` producer→splitter link per producer still lacking a splitter,
one `T/M` merger→consumer link per consumer still lacking a merger, and
the `N*M` full-mesh splitter→merger links of rate `T/(N*M)` summing to
`T`. -/
theorem edge_rate_distribution (g : ℕ) (xr : ℚ × ℚ) (st : PlanState) (e : Edge)
    (hndp : ((edgeProducers st e).map PlacedEntity.id).Nodup)
    (hndc : ((edgeConsumers st e).map PlacedEntity.id).Nodup) :
    ((edgeProducers st e).length = 0 ∨ (edgeConsumers st e).length = 0 →
      newBeltRates g xr st e = []) ∧
    ((edgeProducers st e).length = 1 → (edgeConsumers st e).length = 1 →
      newBeltRates g xr st e = [e.rate]) ∧
    ((edgeProducers st e).length = 1 → 1 < (edgeConsumers st e).length →
      newBeltRates g xr st e =
        (if (lookupJ st.splitterByProdId (headEnt (edgeProducers st e)).id).isSome
          then [] else [e.rate]) ++
        List.replicate (edgeConsumers st e).length
          (e.rate / ((edgeConsumers st e).length : ℚ)) ∧
      (List.replicate (edgeConsumers st e).length
        (e.rate / ((edgeConsumers st e).length : ℚ))).sum = e.rate) ∧
    (1 < (edgeProducers st e).length → (edgeConsumers st e).length = 1 →
      newBeltRates g xr st e =
        (if (lookupJ st.mergerByConsId (headEnt (edgeConsumers st e)).id).isSome
          then [] else [e.rate]) ++
        List.replicate (edgeProducers st e).length
          (e.rate / ((edgeProducers st e).length : ℚ)) ∧
      (List.replicate (edgeProducers st e).length
        (e.rate / ((edgeProducers st e).length : ℚ))).sum = e.rate) ∧
    (1 < (edgeProducers st e).length → 1 < (edgeConsumers st e).length →
      newBeltRates g xr st e =
        ((edgeProducers st e).filter
          (fun p => (lookupJ st.splitterByProdId p.id).isNone)).map
            (fun _ => e.rate / ((edgeProducers st e).length : ℚ)) ++
        ((edgeConsumers st e).filter
          (fun c => (lookupJ st.mergerByConsId c.id).isNone)).map
            (fun _ => e.rate / ((edgeConsumers st e).length : ℚ)) ++
        List.replicate ((edgeProducers st e).length * (edgeConsumers st e).length)
          (e.rate / (((edgeProducers st e).length : ℚ) *
            ((edgeConsumers st e).length : ℚ))) ∧
      (List.replicate ((edgeProducers st e).length * (edgeConsumers st e).length)
        (e.rate / (((edgeProducers st e).length : ℚ) *
          ((edgeConsumers st e).length : ℚ)))).sum = e.rate) := by
  refine ⟨?_, ?_, ?_, ?_, ?_⟩
  · intro h0
    unfold newBeltRates processEdge
    dsimp only
    unfold edgeProducers edgeConsumers at h0
    rw [if_pos h0]
    rw [← List.length_map st.belts Belt.rate, List.drop_length]
  · intro h1 h2
    have heq : processEdge g xr st e =
        directCase e (edgeProducers st e) (edgeConsumers st e)
          (busTouch g xr e.item st) := by
      unfold processEdge
      dsimp only
      rw [if_neg (by unfold edgeProducers at h1; unfold edgeConsumers at h2; omega),
        if_neg (by unfold edgeProducers at h1; unfold edgeConsumers at h2; omega),
        if_neg (by unfold edgeProducers at h1; unfold edgeConsumers at h2; omega),
        if_neg (by unfold edgeProducers at h1; unfold edgeConsumers at h2; omega)]
      rfl
    unfold newBeltRates
    rw [heq, directCase_rates]
    exact dropNew st.belts [e.rate]
  · intro h1 h2
    have heq : processEdge g xr st e =
        fanOutCase g e (edgeProducers st e) (edgeConsumers st e)
          (busTouch g xr e.item st) := by
      unfold processEdge
      dsimp only
      rw [if_neg (by unfold edgeProducers at h1; unfold edgeConsumers at h2; omega),
        if_pos (by unfold edgeProducers at h1; unfold edgeConsumers at h2; omega)]
      rfl
    refine ⟨?_, replicate_div_sum _ _ (by omega)⟩
    unfold newBeltRates
    rw [heq, fanOutCase_rates]
    rw [List.append_assoc]
    exact dropNew st.belts _
  · intro h1 h2
    have heq : processEdge g xr st e =
        fanInCase g e (edgeProducers st e) (edgeConsumers st e)
          (busTouch g xr e.item st) := by
      unfold processEdge
      dsimp only
      rw [if_neg (by unfold edgeProducers at h1; unfold edgeConsumers at h2; omega),
        if_neg (by unfold edgeProducers at h1; unfold edgeConsumers at h2; omega),
        if_pos (by unfold edgeProducers at h1; unfold edgeConsumers at h2; omega)]
      rfl
    refine ⟨?_, replicate_div_sum _ _ (by omega)⟩
    unfold newBeltRates
    rw [heq, fanInCase_rates]
    rw [List.append_assoc]
    exact dropNew st.belts _
  · intro h1 h2
    have heq : processEdge g xr st e =
        meshCase g e (edgeProducers st e) (edgeConsumers st e)
          (busTouch g xr e.item st) := by
      unfold processEdge
      dsimp only
      rw [if_neg (by unfold edgeProducers at h1; unfold edgeConsumers at h2; omega),
        if_neg (by unfold edgeProducers at h1; unfold edgeConsumers at h2; omega),
        if_neg (by unfold edgeProducers at h1; unfold edgeConsumers at h2; omega),
        if_pos (by unfold edgeProducers at h1; unfold edgeConsumers at h2; omega)]
      rfl
    have hmax : (max 1 (edgeProducers st e).length : ℕ) = (edgeProducers st e).length :=
      Nat.max_eq_right (Nat.one_le_of_lt h1)
    constructor
    · unfold newBeltRates
      rw [heq, meshCase_rates g e _ _ _ hndp hndc]
      rw [hmax, div_div]
      rw [List.append_assoc, List.append_assoc]
      have hb : (busTouch g xr e.item st).belts = st.belts := rfl
      have hs : (busTouch g xr e.item st).splitterByProdId = st.splitterByProdId := rfl
      have hm : (busTouch g xr e.item st).mergerByConsId = st.mergerByConsId := rfl
      rw [hb, hs, hm]
      have hdrop := dropNew st.belts
        (((edgeProducers st e).filter
            (fun p => (lookupJ st.splitterByProdId p.id).isNone)).map
              (fun _ => e.rate / ((edgeProducers st e).length : ℚ)) ++
          (((edgeConsumers st e).filter
            (fun c => (lookupJ st.mergerByConsId c.id).isNone)).map
              (fun _ => e.rate / ((edgeConsumers st e).length : ℚ)) ++
          List.replicate ((edgeProducers st e).length * (edgeConsumers st e).length)
            (e.rate / (((edgeProducers st e).length : ℚ) *
              ((edgeConsumers st e).length : ℚ)))))
      rw [hdrop, ← List.append_assoc]
    · have hpos : 0 < (edgeProducers st e).length * (edgeConsumers st e).length := by
        positivity
      have hsum := replicate_div_sum
        ((edgeProducers st e).length * (edgeConsumers st e).length) e.rate hpos
      rw [Nat.cast_mul] at hsum
      exact hsum

/-- Witness for C3 (amended) at a concrete 1→1 edge of rate 42. -/
theorem edge_rate_distribution_witness :
    newBeltRates 1 (busXRange [entProdW, entConsW]) stW edgeW = [(42 : ℚ)] :=
  (edge_rate_distribution 1 (busXRange [entProdW, entConsW]) stW edgeW
    (by decide) (by decide)).2.1 (by decide) (by decide)

/-- C3 counterexample: in the `entsC3` run the second collected edge has
total rate 240 with 4 producer instances and 1 consumer instance, yet —
because the consumer's merger already exists from the first edge — no link
of rate 240 is created for it (only the four 60-rate producer→merger
links), and no belt of the whole run carries 240: the claimed
"merger-to-consumer link carries T" fails for this edge. -/
theorem fanin_reuse_counterexample :
    (collectEdges rootC3).map Edge.rate = [120, 240] ∧
    (collectEdges rootC3).map (fun e =>
      ((edgeProducers (stateAfterC3 1) e).length,
       (edgeConsumers (stateAfterC3 1) e).length)) = [(2, 1), (4, 1)] ∧
    (stateAfterC3 2).belts.map Belt.rate = [120, 60, 60, 60, 60, 60, 60] ∧
    (planBeltsState 1 entsC3 rootC3 100).belts.map Belt.rate =
      [120, 60, 60, 60, 60, 60, 60] ∧
    (240 : ℚ) ∉ (planBeltsState 1 entsC3 rootC3 100).belts.map Belt.rate :=
  ⟨by decide, by decide, by decide, by decide, by decide⟩

/-! ### Integrality and separation lemmas (towards C5) -/

theorem den_one_int {q : ℚ} (h : q.den = 1) : ∃ n : ℤ, q = (n : ℚ) :=
  ⟨q.num, (Rat.coe_int_num_of_den_eq_one h).symm⟩

theorem den_one_add {p q : ℚ} (hp : p.den = 1) (hq : q.den = 1) :
    (p + q).den = 1 := by
  obtain ⟨a, rfl⟩ := den_one_int hp
  obtain ⟨b, rfl⟩ := den_one_int hq
  rw [← Int.cast_add]
  exact Rat.den_intCast _

/-- Two rationals with unit denominators that are at least `2/5` apart are
at least `1` apart. -/
theorem int_gap {p q : ℚ} (hp : p.den = 1) (hq : q.den = 1)
    (h : p + 2/5 ≤ q) : p + 1 ≤ q := by
  obtain ⟨a, rfl⟩ := den_one_int hp
  obtain ⟨b, rfl⟩ := den_one_int hq
  have hab : a < b := by
    have : (a : ℚ) < b := lt_of_lt_of_le (by linarith) h
    exact_mod_cast this
  have : a + 1 ≤ b := hab
  have : ((a + 1 : ℤ) : ℚ) ≤ b := by exact_mod_cast this
  push_cast at this
  linarith

/-- Propositional reading of the padded intersection test. -/
theorem intersectsB_eq_false_iff (x y : Rect) :
    intersectsB x y = false ↔
      (x.x + x.w ≤ y.x ∨ y.x + y.w ≤ x.x ∨ x.y + x.h ≤ y.y ∨ y.y + y.h ≤ x.y) := by
  unfold intersectsB
  by_cases h1 : x.x + x.w ≤ y.x <;> by_cases h2 : y.x + y.w ≤ x.x <;>
    by_cases h3 : x.y + x.h ≤ y.y <;> by_cases h4 : y.y + y.h ≤ x.y <;>
      simp [h1, h2, h3, h4]

/-- The separation upgrade behind C5: on integer geometry, passing the
planner's one-sided padded collision test (candidate expanded by
`ENTITY_PADDING_M` against the bare obstacle) forces the two *mutually*
margin-expanded rectangles apart. -/
theorem sep_upgrade (a b : PlacedEntity)
    (hax : a.x.den = 1) (hay : a.y.den = 1)
    (haw : a.meta.w.den = 1) (hah : a.meta.h.den = 1)
    (hbx : b.x.den = 1) (hby : b.y.den = 1)
    (hbw : b.meta.w.den = 1) (hbh : b.meta.h.den = 1)
    (hsep : intersectsB (expandRect (rectOfEntity b) ENTITY_PADDING_M)
      (rectOfEntity a) = false) :
    intersectsB (expandRect (rectOfEntity a) ENTITY_PADDING_M)
      (expandRect (rectOfEntity b) ENTITY_PADDING_M) = false := by
  rw [intersectsB_eq_false_iff] at hsep ⊢
  simp only [expandRect, rectOfEntity, ENTITY_PADDING_M] at hsep ⊢
  rcases hsep with h | h | h | h
  · have := int_gap (den_one_add hbx hbw) hax (by linarith)
    right
    left
    linarith
  · have := int_gap (den_one_add hax haw) hbx (by linarith)
    left
    linarith
  · have := int_gap (den_one_add hby hbh) hay (by linarith)
    right
    right
    right
    linarith
  · have := int_gap (den_one_add hay hah) hby (by linarith)
    right
    right
    left
    linarith

/-! ### Run-structure lemmas: every placed entity carries the integral
`BUILDINGS` footprint. -/

/-- Dimension bookkeeping predicate: each placement carries its building's
catalog footprint. -/
def DimsOk (l : List PlacedEntity) : Prop :=
  ∀ e ∈ l, e.meta.w = (BUILDINGS e.type).w ∧ e.meta.h = (BUILDINGS e.type).h

theorem buildings_dims_den (b : BuildingId) :
    (BUILDINGS b).w.den = 1 ∧ (BUILDINGS b).h.den = 1 := by
  cases b <;> exact ⟨rfl, rfl⟩

theorem placeInstances_dims (g : ℕ) (node : Node) (x y : ℚ) (perRow : ℕ) :
    ∀ (cnt k : ℕ) (st : LayoutState), DimsOk st.placements →
    DimsOk (placeInstances g node x y perRow st cnt k).placements := by
  intro cnt
  induction cnt with
  | zero => intro k st h; exact h
  | succ n ih =>
    intro k st h
    apply ih
    intro e he
    rcases List.mem_append.mp he with he | he
    · exact h e he
    · rcases List.mem_singleton.mp he with rfl
      exact ⟨rfl, rfl⟩

theorem placeLayer_dims (g : ℕ) (yBase : ℚ) :
    ∀ (nodes : List Node) (x : ℚ) (st : LayoutState), DimsOk st.placements →
    DimsOk (placeLayer g yBase nodes x st).placements := by
  intro nodes
  induction nodes with
  | nil => intro x st h; exact h
  | cons nd rest ih =>
    intro x st h
    exact ih _ _ (placeInstances_dims g nd x yBase (perRowOf nd) (instanceCount nd) 0 st h)

theorem placeLayers_dims (g : ℕ) (originX : ℚ) :
    ∀ (layers : List (List Node)) (yBase : ℚ) (st : LayoutState), DimsOk st.placements →
    DimsOk (placeLayers g originX layers yBase st).placements := by
  intro layers
  induction layers with
  | nil => intro yBase st h; exact h
  | cons layer rest ih =>
    intro yBase st h
    exact ih _ _ (placeLayer_dims g yBase layer originX st h)

theorem autoLayout_dims (g : ℕ) (root : Node) (ox oy : ℚ) (seed : ℕ) :
    DimsOk (autoLayout g root ox oy seed).1 := by
  unfold autoLayout
  exact placeLayers_dims g ox (layersOf root).reverse oy ⟨[], [], seed⟩ (by intro e he; cases he)

theorem makeSplitters_dims (g : ℕ) (r : ℚ) (it : String) :
    ∀ (producers : List PlacedEntity) (st : PlanState) (acc : List PlacedEntity),
    DimsOk st.extras → DimsOk (makeSplitters g r it producers st acc).1.extras := by
  intro producers
  induction producers with
  | nil => intro st acc h; exact h
  | cons p rest ih =>
    intro st acc h
    rcases hl : lookupJ st.splitterByProdId p.id with _ | s
    · simp only [makeSplitters, hl]
      apply ih
      intro e he
      simp only [pushBelt] at he
      rcases List.mem_append.mp he with he | he
      · exact h e he
      · rcases List.mem_singleton.mp he with rfl
        exact ⟨rfl, rfl⟩
    · simp only [makeSplitters, hl]
      exact ih _ _ h

theorem makeMergers_dims (g : ℕ) (r : ℚ) (it : String) (ii : ℕ) :
    ∀ (consumers : List PlacedEntity) (st : PlanState) (acc : List PlacedEntity),
    DimsOk st.extras → DimsOk (makeMergers g r it ii consumers st acc).1.extras := by
  intro consumers
  induction consumers with
  | nil => intro st acc h; exact h
  | cons p rest ih =>
    intro st acc h
    rcases hl : lookupJ st.mergerByConsId p.id with _ | s
    · simp only [makeMergers, hl]
      apply ih
      intro e he
      simp only [pushBelt] at he
      rcases List.mem_append.mp he with he | he
      · exact h e he
      · rcases List.mem_singleton.mp he with rfl
        exact ⟨rfl, rfl⟩
    · simp only [makeMergers, hl]
      exact ih _ _ h

theorem processEdge_dims (g : ℕ) (xr : ℚ × ℚ) (st : PlanState) (e : Edge)
    (h : DimsOk st.extras) : DimsOk (processEdge g xr st e).extras := by
  unfold processEdge
  dsimp only
  by_cases h0 : (entitiesForNode st.obstacles e.sourceN).length = 0 ∨
      (entitiesForNode st.obstacles e.targetN).length = 0
  · rw [if_pos h0]
    exact h
  · rw [if_neg h0]
    have hbus : DimsOk (busTouch g xr e.item st).extras := h
    by_cases h1 : (entitiesForNode st.obstacles e.sourceN).length = 1 ∧
        (entitiesForNode st.obstacles e.targetN).length > 1
    · rw [if_pos h1]
      unfold fanOutCase
      rcases hl : lookupJ (busTouch g xr e.item st).splitterByProdId
          (headEnt (entitiesForNode st.obstacles e.sourceN)).id with _ | s
      · simp only [hl]
        obtain ⟨f1, -, -, -⟩ := fanOutBelts_state _ _ _ _ _ 0 _
        rw [f1]
        simp only [pushBelt]
        intro e' he'
        rcases List.mem_append.mp he' with he' | he'
        · exact hbus e' he'
        · rcases List.mem_singleton.mp he' with rfl
          exact ⟨rfl, rfl⟩
      · simp only [hl]
        obtain ⟨f1, -, -, -⟩ := fanOutBelts_state _ _ _ _ _ 0 _
        rw [f1]
        exact hbus
    · rw [if_neg h1]
      by_cases h2 : (entitiesForNode st.obstacles e.sourceN).length > 1 ∧
          (entitiesForNode st.obstacles e.targetN).length = 1
      · rw [if_pos h2]
        unfold fanInCase
        rcases hl : lookupJ (busTouch g xr e.item st).mergerByConsId
            (headEnt (entitiesForNode st.obstacles e.targetN)).id with _ | m
        · simp only [hl]
          obtain ⟨f1, -, -, -⟩ := fanInBelts_state _ _ _ _ 0 _
          rw [f1]
          simp only [pushBelt]
          intro e' he'
          rcases List.mem_append.mp he' with he' | he'
          · exact hbus e' he'
          · rcases List.mem_singleton.mp he' with rfl
            exact ⟨rfl, rfl⟩
        · simp only [hl]
          obtain ⟨f1, -, -, -⟩ := fanInBelts_state _ _ _ _ 0 _
          rw [f1]
          exact hbus
      · rw [if_neg h2]
        by_cases h3 : (entitiesForNode st.obstacles e.sourceN).length > 1 ∧
            (entitiesForNode st.obstacles e.targetN).length > 1
        · rw [if_pos h3]
          unfold meshCase
          dsimp only
          obtain ⟨m1, -, -, -⟩ := meshBelts_state _ _ _ _ _
          rw [m1]
          exact makeMergers_dims _ _ _ _ _ _ _
            (makeSplitters_dims _ _ _ _ _ _ hbus)
        · rw [if_neg h3]
          exact hbus

theorem planBeltsState_dims (g : ℕ) (ents : List PlacedEntity) (root : Node)
    (seed : ℕ) : DimsOk (planBeltsState g ents root seed).extras := by
  unfold planBeltsState
  generalize collectEdges root = edges
  have h0 : DimsOk (⟨[], [], ents, [], [], [], [], seed⟩ : PlanState).extras := by
    intro e he
    cases he
  generalize hst : (⟨[], [], ents, [], [], [], [], seed⟩ : PlanState) = st0
  rw [hst] at h0
  clear hst
  induction edges generalizing st0 with
  | nil => exact h0
  | cons e rest ih => exact ih _ (processEdge_dims g _ st0 e h0)

/-! ### The collision invariant of a full run, derived from the placement
process. -/

/-- Grid snapping lands on an integer (`jsRound(m/g) * g` with a natural
grid step). -/
theorem snapToGrid_den (g : ℕ) (m : ℚ) : (snapToGrid g m).den = 1 := by
  have h : snapToGrid g m = ((jsRound (m / g) * (g : ℤ) : ℤ) : ℚ) := by
    unfold snapToGrid
    push_cast
    ring
  rw [h]
  exact Rat.den_intCast _

/-- A placement that cleared the bounded search: its padded rectangle
avoids every obstacle present at placement time, and its coordinates are
grid-snapped (integral). -/
def PlacedFree (before : List PlacedEntity) (e : PlacedEntity) : Prop :=
  collidesAnyB (rectOfEntity e) before = false ∧ e.x.den = 1 ∧ e.y.den = 1

/-- The bounded free-position search for this entity, over the obstacles
present at its placement time, found nothing. The source then falls back to
the intended position — which is exactly where the entity sits, so the
exhausted search is recoverable from the entity's own fields. -/
def SearchExhausted (g : ℕ) (before : List PlacedEntity) (e : PlacedEntity) : Prop :=
  findFreePositionNearOpt g e.x e.y e.meta.w e.meta.h before = none

/-- Collision invariant of a placement list: every entry was either placed
free of `base` and of all earlier entries, or its bounded search was
exhausted. -/
def SepOk (g : ℕ) (base l : List PlacedEntity) : Prop :=
  ∀ (j : ℕ) (hj : j < l.length),
    PlacedFree (base ++ l.take j) l[j] ∨ SearchExhausted g (base ++ l.take j) l[j]

/-- All coordinates in the list are integral. -/
def CoordsInt (l : List PlacedEntity) : Prop :=
  ∀ e ∈ l, e.x.den = 1 ∧ e.y.den = 1

/-- Soundness of the ring search: a returned position is snapped and its
padded rectangle clears every obstacle. -/
theorem searchRing_sound (g : ℕ) (x y w h : ℚ) (obs : List PlacedEntity) :
    ∀ (radii : List ℚ) (pos : ℚ × ℚ),
      searchRing g x y w h obs radii = some pos →
      collidesAnyB ⟨pos.1, pos.2, w, h⟩ obs = false ∧
        pos.1.den = 1 ∧ pos.2.den = 1 := by
  intro radii
  induction radii with
  | nil =>
    intro pos hpos
    exact absurd hpos (by simp [searchRing])
  | cons r rest ih =>
    intro pos hpos
    simp only [searchRing] at hpos
    rcases hf : (ringCandidates x y r).find?
        (fun c => !collidesAnyB ⟨snapToGrid g c.1, snapToGrid g c.2, w, h⟩ obs) with _ | c
    · rw [hf] at hpos
      exact ih pos hpos
    · rw [hf] at hpos
      have hc := List.find?_some hf
      simp only [Option.some.injEq] at hpos
      subst hpos
      refine ⟨?_, snapToGrid_den g c.1, snapToGrid_den g c.2⟩
      simpa using hc

theorem findFreePos_sound (g : ℕ) (x y w h : ℚ) (obs : List PlacedEntity)
    (pos : ℚ × ℚ) (hpos : findFreePositionNearOpt g x y w h obs = some pos) :
    collidesAnyB ⟨pos.1, pos.2, w, h⟩ obs = false ∧
      pos.1.den = 1 ∧ pos.2.den = 1 :=
  searchRing_sound g x y w h obs _ pos hpos

/-- The position `findFreePositionNear` returns has integral coordinates
whenever the intended fallback does. -/
theorem findFreePositionNear_den (g : ℕ) (x y : ℚ) (hx : x.den = 1)
    (hy : y.den = 1) (w h : ℚ) (obs : List PlacedEntity) :
    (findFreePositionNear g x y w h obs).1.den = 1 ∧
      (findFreePositionNear g x y w h obs).2.den = 1 := by
  unfold findFreePositionNear
  rcases hopt : findFreePositionNearOpt g x y w h obs with _ | p
  · simp only [Option.getD_none]
    exact ⟨hx, hy⟩
  · simp only [Option.getD_some]
    obtain ⟨-, h1, h2⟩ := findFreePos_sound g x y w h obs p hopt
    exact ⟨h1, h2⟩

/-- Every entity built around a `findFreePositionNear` result is either
placed free of the obstacles it searched against, or records an exhausted
search (it then sits at the intended position, so re-running the bounded
search from its own fields reproduces the failure). -/
theorem place_step_classify (g : ℕ) (x y w h : ℚ) (obs : List PlacedEntity)
    (b : BuildingId) (idn : ℕ) (mnode : Option Node) :
    PlacedFree obs ⟨idn, b, (findFreePositionNear g x y w h obs).1,
      (findFreePositionNear g x y w h obs).2, .r0, ⟨w, h, mnode⟩⟩ ∨
    SearchExhausted g obs ⟨idn, b, (findFreePositionNear g x y w h obs).1,
      (findFreePositionNear g x y w h obs).2, .r0, ⟨w, h, mnode⟩⟩ := by
  unfold findFreePositionNear
  rcases hopt : findFreePositionNearOpt g x y w h obs with _ | p
  · right
    unfold SearchExhausted
    simp only [Option.getD_none]
    exact hopt
  · left
    obtain ⟨hc, h1, h2⟩ := findFreePos_sound g x y w h obs p hopt
    simp only [Option.getD_some]
    exact ⟨hc, h1, h2⟩

/-- Transport a classification along an equality of the obstacle list
(the entity itself is untouched). -/
theorem classify_congr {g : ℕ} {obs obs2 : List PlacedEntity} {e : PlacedEntity}
    (h : obs = obs2) (hc : PlacedFree obs e ∨ SearchExhausted g obs e) :
    PlacedFree obs2 e ∨ SearchExhausted g obs2 e := h ▸ hc

/-- Appending a classified placement preserves the collision invariant. -/
theorem SepOk_append (g : ℕ) (base l : List PlacedEntity) (e : PlacedEntity)
    (hl : SepOk g base l)
    (he : PlacedFree (base ++ l) e ∨ SearchExhausted g (base ++ l) e) :
    SepOk g base (l ++ [e]) := by
  intro j hj
  have hlen : j < l.length + 1 := by
    simpa using hj
  rcases Nat.lt_or_ge j l.length with hlt | hge
  · have ht : (l ++ [e]).take j = l.take j :=
      List.take_append_of_le_length (le_of_lt hlt)
    have hg : (l ++ [e])[j] = l[j] := List.getElem_append_left hlt
    rw [ht, hg]
    exact hl j hlt
  · have hj' : j = l.length := by omega
    subst hj'
    have ht : (l ++ [e]).take l.length = l := List.take_left l [e]
    have hg : (l ++ [e])[l.length] = e := List.getElem_concat_length l e _ rfl hj
    rw [ht, hg]
    exact he

/-- Extract the one-sided separation against one earlier entity from a free
placement. -/
theorem PlacedFree_sep {before : List PlacedEntity} {e a : PlacedEntity}
    (hf : PlacedFree before e) (ha : a ∈ before) :
    intersectsB (expandRect (rectOfEntity e) ENTITY_PADDING_M)
      (rectOfEntity a) = false := by
  obtain ⟨hc, -, -⟩ := hf
  unfold collidesAnyB at hc
  have hnot := (List.any_eq_false.mp hc) _ ha
  exact Bool.eq_false_iff.mpr hnot

/-- Combine integral coordinates, catalog footprints and the one-sided
padded check into mutual margin separation. -/
theorem mutual_sep {a b : PlacedEntity}
    (hax : a.x.den = 1) (hay : a.y.den = 1)
    (hbx : b.x.den = 1) (hby : b.y.den = 1)
    (hda : a.meta.w = (BUILDINGS a.type).w ∧ a.meta.h = (BUILDINGS a.type).h)
    (hdb : b.meta.w = (BUILDINGS b.type).w ∧ b.meta.h = (BUILDINGS b.type).h)
    (hsep : intersectsB (expandRect (rectOfEntity b) ENTITY_PADDING_M)
      (rectOfEntity a) = false) :
    intersectsB (expandRect (rectOfEntity a) ENTITY_PADDING_M)
      (expandRect (rectOfEntity b) ENTITY_PADDING_M) = false :=
  sep_upgrade a b hax hay (hda.1 ▸ (buildings_dims_den _).1)
    (hda.2 ▸ (buildings_dims_den _).2) hbx hby (hdb.1 ▸ (buildings_dims_den _).1)
    (hdb.2 ▸ (buildings_dims_den _).2) hsep

/-- The machine entity built in one `placeInstances` step. -/
def machineEntAt (g : ℕ) (node : Node) (x yBase : ℚ) (perRow k idn : ℕ)
    (obs : List PlacedEntity) : PlacedEntity :=
  let spec := BUILDINGS node.building
  let spacing : ℚ := 2
  let col := k % perRow
  let row := k / perRow
  let cx := x + col * (spec.w + spacing)
  let cy := yBase + row * (spec.h + spacing)
  let pos := findFreePositionNear g (snapToGrid g cx) (snapToGrid g cy)
    spec.w spec.h obs
  ⟨idn, node.building, pos.1, pos.2, .r0, ⟨spec.w, spec.h, some node⟩⟩

theorem placeInstances_step (g : ℕ) (node : Node) (x y : ℚ) (perRow : ℕ)
    (n k : ℕ) (st : LayoutState) :
    placeInstances g node x y perRow st (n + 1) k =
      placeInstances g node x y perRow
        ⟨st.placements ++ [machineEntAt g node x y perRow k st.nextId st.obstacles],
         st.obstacles ++ [machineEntAt g node x y perRow k st.nextId st.obstacles],
         st.nextId + 1⟩ n (k + 1) := rfl

theorem machineEntAt_classify (g : ℕ) (node : Node) (x y : ℚ)
    (perRow k idn : ℕ) (obs : List PlacedEntity) :
    PlacedFree obs (machineEntAt g node x y perRow k idn obs) ∨
      SearchExhausted g obs (machineEntAt g node x y perRow k idn obs) :=
  place_step_classify g
    (snapToGrid g (x + ((k % perRow : ℕ) : ℚ) * ((BUILDINGS node.building).w + 2)))
    (snapToGrid g (y + ((k / perRow : ℕ) : ℚ) * ((BUILDINGS node.building).h + 2)))
    (BUILDINGS node.building).w (BUILDINGS node.building).h obs
    node.building idn (some node)

/-- Machine coordinates are always integral: the intended cell is snapped
at the call site, so even the exhausted fallback is on-grid. -/
theorem machineEntAt_coords (g : ℕ) (node : Node) (x y : ℚ)
    (perRow k idn : ℕ) (obs : List PlacedEntity) :
    (machineEntAt g node x y perRow k idn obs).x.den = 1 ∧
      (machineEntAt g node x y perRow k idn obs).y.den = 1 := by
  unfold machineEntAt
  dsimp only
  exact findFreePositionNear_den g _ _ (snapToGrid_den g _) (snapToGrid_den g _)
    _ _ obs

theorem placeInstances_sep (g : ℕ) (node : Node) (x y : ℚ) (perRow : ℕ) :
    ∀ (cnt k : ℕ) (st : LayoutState),
      st.obstacles = st.placements →
      SepOk g [] st.placements →
      CoordsInt st.placements →
      (placeInstances g node x y perRow st cnt k).obstacles =
        (placeInstances g node x y perRow st cnt k).placements ∧
      SepOk g [] (placeInstances g node x y perRow st cnt k).placements ∧
      CoordsInt (placeInstances g node x y perRow st cnt k).placements := by
  intro cnt
  induction cnt with
  | zero =>
    intro k st h1 h2 h3
    exact ⟨h1, h2, h3⟩
  | succ n ih =>
    intro k st h1 h2 h3
    rw [placeInstances_step]
    refine ih (k + 1) _ ?_ ?_ ?_
    · dsimp only
      rw [h1]
    · dsimp only
      refine SepOk_append g [] st.placements _ h2 ?_
      exact classify_congr h1
        (machineEntAt_classify g node x y perRow k st.nextId st.obstacles)
    · dsimp only
      intro e he
      rcases List.mem_append.mp he with he | he
      · exact h3 e he
      · rcases List.mem_singleton.mp he with rfl
        exact machineEntAt_coords g node x y perRow k st.nextId st.obstacles

theorem placeLayer_sep (g : ℕ) (yBase : ℚ) :
    ∀ (nodes : List Node) (x : ℚ) (st : LayoutState),
      st.obstacles = st.placements →
      SepOk g [] st.placements → CoordsInt st.placements →
      (placeLayer g yBase nodes x st).obstacles =
        (placeLayer g yBase nodes x st).placements ∧
      SepOk g [] (placeLayer g yBase nodes x st).placements ∧
      CoordsInt (placeLayer g yBase nodes x st).placements := by
  intro nodes
  induction nodes with
  | nil =>
    intro x st h1 h2 h3
    exact ⟨h1, h2, h3⟩
  | cons nd rest ih =>
    intro x st h1 h2 h3
    obtain ⟨g1, g2, g3⟩ :=
      placeInstances_sep g nd x yBase (perRowOf nd) (instanceCount nd) 0 st h1 h2 h3
    exact ih _ _ g1 g2 g3

theorem placeLayers_sep (g : ℕ) (originX : ℚ) :
    ∀ (layers : List (List Node)) (yBase : ℚ) (st : LayoutState),
      st.obstacles = st.placements →
      SepOk g [] st.placements → CoordsInt st.placements →
      (placeLayers g originX layers yBase st).obstacles =
        (placeLayers g originX layers yBase st).placements ∧
      SepOk g [] (placeLayers g originX layers yBase st).placements ∧
      CoordsInt (placeLayers g originX layers yBase st).placements := by
  intro layers
  induction layers with
  | nil =>
    intro yBase st h1 h2 h3
    exact ⟨h1, h2, h3⟩
  | cons layer rest ih =>
    intro yBase st h1 h2 h3
    obtain ⟨g1, g2, g3⟩ := placeLayer_sep g yBase layer originX st h1 h2 h3
    exact ih _ _ g1 g2 g3

/-- The layout's machine list satisfies the collision invariant (each
machine either cleared its predecessors or exhausted its search), with all
coordinates integral. -/
theorem autoLayout_sep (g : ℕ) (root : Node) (ox oy : ℚ) (seed : ℕ) :
    SepOk g [] (autoLayout g root ox oy seed).1 ∧
      CoordsInt (autoLayout g root ox oy seed).1 := by
  unfold autoLayout
  obtain ⟨-, h2, h3⟩ := placeLayers_sep g ox (layersOf root).reverse oy
    ⟨[], [], seed⟩ rfl (fun j hj => absurd hj (Nat.not_lt_zero j))
    (fun e he => absurd he (List.not_mem_nil e))
  exact ⟨h2, h3⟩

/-- Junction-planner state invariant: the obstacle list is exactly the
initial board followed by the created junctions, and those junctions
satisfy the collision invariant over it. -/
def PlanSep (g : ℕ) (base : List PlacedEntity) (st : PlanState) : Prop :=
  st.obstacles = base ++ st.extras ∧ SepOk g base st.extras

theorem placeSplitterNear_classify (g : ℕ) (prod : PlacedEntity)
    (obs : List PlacedEntity) (idn : ℕ) :
    PlacedFree obs (placeSplitterNear g prod obs idn) ∨
      SearchExhausted g obs (placeSplitterNear g prod obs idn) :=
  place_step_classify g (prod.x + prod.meta.w + 1)
    (prod.y + prod.meta.h / 2 - (BUILDINGS .splitter).h / 2)
    (BUILDINGS .splitter).w (BUILDINGS .splitter).h obs .splitter idn none

theorem placeMergerNear_classify (g : ℕ) (cons : PlacedEntity)
    (obs : List PlacedEntity) (idn : ℕ) :
    PlacedFree obs (placeMergerNear g cons obs idn) ∨
      SearchExhausted g obs (placeMergerNear g cons obs idn) :=
  place_step_classify g (cons.x - (BUILDINGS .merger).w - 1)
    (cons.y + cons.meta.h / 2 - (BUILDINGS .merger).h / 2)
    (BUILDINGS .merger).w (BUILDINGS .merger).h obs .merger idn none

theorem makeSplitters_sep (g : ℕ) (r : ℚ) (it : String)
    (base : List PlacedEntity) :
    ∀ (producers : List PlacedEntity) (st : PlanState) (acc : List PlacedEntity),
      PlanSep g base st → PlanSep g base (makeSplitters g r it producers st acc).1 := by
  intro producers
  induction producers with
  | nil =>
    intro st acc h
    exact h
  | cons p rest ih =>
    intro st acc h
    rcases hl : lookupJ st.splitterByProdId p.id with _ | s
    · simp only [makeSplitters, hl]
      apply ih
      obtain ⟨h1, h2⟩ := h
      constructor
      · simp only [pushBelt]
        rw [h1, List.append_assoc]
      · simp only [pushBelt]
        refine SepOk_append g base st.extras _ h2 ?_
        exact classify_congr h1 (placeSplitterNear_classify g p st.obstacles st.nextId)
    · simp only [makeSplitters, hl]
      exact ih _ _ h

theorem makeMergers_sep (g : ℕ) (r : ℚ) (it : String) (ii : ℕ)
    (base : List PlacedEntity) :
    ∀ (consumers : List PlacedEntity) (st : PlanState) (acc : List PlacedEntity),
      PlanSep g base st → PlanSep g base (makeMergers g r it ii consumers st acc).1 := by
  intro consumers
  induction consumers with
  | nil =>
    intro st acc h
    exact h
  | cons p rest ih =>
    intro st acc h
    rcases hl : lookupJ st.mergerByConsId p.id with _ | m
    · simp only [makeMergers, hl]
      apply ih
      obtain ⟨h1, h2⟩ := h
      constructor
      · simp only [pushBelt]
        rw [h1, List.append_assoc]
      · simp only [pushBelt]
        refine SepOk_append g base st.extras _ h2 ?_
        exact classify_congr h1 (placeMergerNear_classify g p st.obstacles st.nextId)
    · simp only [makeMergers, hl]
      exact ih _ _ h

theorem fanOutCase_sep (g : ℕ) (e : Edge) (producers consumers : List PlacedEntity)
    (base : List PlacedEntity) (st : PlanState) (h : PlanSep g base st) :
    PlanSep g base (fanOutCase g e producers consumers st) := by
  unfold fanOutCase
  dsimp only
  rcases hl : lookupJ st.splitterByProdId (headEnt producers).id with _ | s
  · dsimp only
    obtain ⟨f1, f2, -, -⟩ := fanOutBelts_state _ _ _ _ _ 0 _
    constructor
    · rw [f1, f2]
      simp only [pushBelt]
      rw [h.1, List.append_assoc]
    · rw [f1]
      simp only [pushBelt]
      refine SepOk_append g base st.extras _ h.2 ?_
      exact classify_congr h.1
        (placeSplitterNear_classify g (headEnt producers) st.obstacles st.nextId)
  · dsimp only
    obtain ⟨f1, f2, -, -⟩ := fanOutBelts_state _ _ _ _ _ 0 _
    constructor
    · rw [f1, f2]
      exact h.1
    · rw [f1]
      exact h.2

theorem fanInCase_sep (g : ℕ) (e : Edge) (producers consumers : List PlacedEntity)
    (base : List PlacedEntity) (st : PlanState) (h : PlanSep g base st) :
    PlanSep g base (fanInCase g e producers consumers st) := by
  unfold fanInCase
  dsimp only
  rcases hl : lookupJ st.mergerByConsId (headEnt consumers).id with _ | m
  · dsimp only
    obtain ⟨f1, f2, -, -⟩ := fanInBelts_state _ _ _ _ 0 _
    constructor
    · rw [f1, f2]
      simp only [pushBelt]
      rw [h.1, List.append_assoc]
    · rw [f1]
      simp only [pushBelt]
      refine SepOk_append g base st.extras _ h.2 ?_
      exact classify_congr h.1
        (placeMergerNear_classify g (headEnt consumers) st.obstacles st.nextId)
  · dsimp only
    obtain ⟨f1, f2, -, -⟩ := fanInBelts_state _ _ _ _ 0 _
    constructor
    · rw [f1, f2]
      exact h.1
    · rw [f1]
      exact h.2

theorem meshCase_sep (g : ℕ) (e : Edge) (producers consumers : List PlacedEntity)
    (base : List PlacedEntity) (st : PlanState) (h : PlanSep g base st) :
    PlanSep g base (meshCase g e producers consumers st) := by
  unfold meshCase
  dsimp only
  have hs := makeSplitters_sep g (e.rate / (producers.length : ℚ)) e.item base
    producers st [] h
  have hmm := makeMergers_sep g (e.rate / (consumers.length : ℚ)) e.item
    e.inputIndex base consumers
    (makeSplitters g (e.rate / (producers.length : ℚ)) e.item producers st []).1 [] hs
  obtain ⟨m1, m2, -, -⟩ := meshBelts_state _ _ _ _ _
  constructor
  · rw [m1, m2]
    exact hmm.1
  · rw [m1]
    exact hmm.2

theorem processEdge_sep (g : ℕ) (xr : ℚ × ℚ) (st : PlanState) (e : Edge)
    (base : List PlacedEntity) (h : PlanSep g base st) :
    PlanSep g base (processEdge g xr st e) := by
  unfold processEdge
  dsimp only
  by_cases h0 : (entitiesForNode st.obstacles e.sourceN).length = 0 ∨
      (entitiesForNode st.obstacles e.targetN).length = 0
  · rw [if_pos h0]
    exact h
  · rw [if_neg h0]
    have hbus : PlanSep g base (busTouch g xr e.item st) := h
    by_cases h1 : (entitiesForNode st.obstacles e.sourceN).length = 1 ∧
        (entitiesForNode st.obstacles e.targetN).length > 1
    · rw [if_pos h1]
      exact fanOutCase_sep g e _ _ base _ hbus
    · rw [if_neg h1]
      by_cases h2 : (entitiesForNode st.obstacles e.sourceN).length > 1 ∧
          (entitiesForNode st.obstacles e.targetN).length = 1
      · rw [if_pos h2]
        exact fanInCase_sep g e _ _ base _ hbus
      · rw [if_neg h2]
        by_cases h3 : (entitiesForNode st.obstacles e.sourceN).length > 1 ∧
            (entitiesForNode st.obstacles e.targetN).length > 1
        · rw [if_pos h3]
          exact meshCase_sep g e _ _ base _ hbus
        · rw [if_neg h3]
          exact hbus

/-- The full junction-planner run keeps its obstacle bookkeeping exact and
its junctions classified. -/
theorem planBeltsState_sep (g : ℕ) (ents : List PlacedEntity) (root : Node)
    (seed : ℕ) : PlanSep g ents (planBeltsState g ents root seed) := by
  unfold planBeltsState
  generalize collectEdges root = edges
  have h0 : PlanSep g ents (⟨[], [], ents, [], [], [], [], seed⟩ : PlanState) := by
    constructor
    · simp
    · intro j hj
      exact absurd hj (Nat.not_lt_zero j)
  generalize hst : (⟨[], [], ents, [], [], [], [], seed⟩ : PlanState) = st0
  rw [hst] at h0
  clear hst
  induction edges generalizing st0 with
  | nil => exact h0
  | cons e rest ih => exact ih _ (processEdge_sep g _ st0 e ents h0)

/-- The pairwise separation a layout run establishes over the entities it
creates. Machines: any later machine whose bounded search was not exhausted
keeps mutual margin separation from every earlier machine. Junctions: any
junction whose bounded search was not exhausted keeps its padded rectangle
clear of every entity placed before it (pre-existing entities included),
and mutual margin separation from every machine and from every earlier
non-exhausted junction. -/
def RunSepSpec (g : ℕ) (kept placements extras : List PlacedEntity) : Prop :=
  (∀ (i j : ℕ) (hi : i < placements.length) (hj : j < placements.length), i < j →
    SearchExhausted g (placements.take j) placements[j] ∨
    intersectsB (expandRect (rectOfEntity placements[i]) ENTITY_PADDING_M)
      (expandRect (rectOfEntity placements[j]) ENTITY_PADDING_M) = false) ∧
  (∀ (j : ℕ) (hj : j < extras.length),
    SearchExhausted g ((kept ++ placements) ++ extras.take j) extras[j] ∨
    ((∀ e ∈ (kept ++ placements) ++ extras.take j,
        intersectsB (expandRect (rectOfEntity extras[j]) ENTITY_PADDING_M)
          (rectOfEntity e) = false) ∧
     (∀ (i : ℕ) (hi : i < placements.length),
        intersectsB (expandRect (rectOfEntity placements[i]) ENTITY_PADDING_M)
          (expandRect (rectOfEntity extras[j]) ENTITY_PADDING_M) = false) ∧
     (∀ (i : ℕ) (hi : i < extras.length), i < j →
        SearchExhausted g ((kept ++ placements) ++ extras.take i) extras[i] ∨
        intersectsB (expandRect (rectOfEntity extras[i]) ENTITY_PADDING_M)
          (expandRect (rectOfEntity extras[j]) ENTITY_PADDING_M) = false)))

/-- C5 (amended): collision invariant of a full layout run, derived from
the placement process. The run's result decomposes into the kept manual
entities, the auto-layout machines and the created junctions; every machine
is collision-checked against the machines placed before it and every
junction against the planner's whole obstacle list, all successful searches
return grid-snapped positions, and on the integer grid the one-sided padded
check upgrades to mutual margin separation — so the created entities
pairwise keep their margins except where a bounded search was exhausted
(the entity then falls back to its intended, possibly overlapping,
position). Machine placement ignores the pre-existing entities (the
counterexample), so only junctions are separated from those. -/
theorem layout_no_overlap (recipes : List Recipe) (fuel g : ℕ)
    (ents : List PlacedEntity) (item : String) (rate : ℚ) (alt : Bool)
    (seed : ℕ) (res : List PlacedEntity × List Belt × List (String × ℚ))
    (hrun : runPlanner recipes fuel g ents item rate alt seed = some res) :
    ∃ kept placements extras : List PlacedEntity,
      res.1 = (kept ++ placements) ++ extras ∧
      kept = ents.filter (fun e => e.meta.node.isNone) ∧
      RunSepSpec g kept placements extras := by
  unfold runPlanner at hrun
  by_cases hi0 : item == ""
  · rw [if_pos hi0] at hrun
    exact absurd hrun (by simp)
  · rw [if_neg hi0] at hrun
    rcases hb : buildChainF recipes alt fuel item rate with _ | oc
    · rw [hb] at hrun
      exact absurd hrun (by simp)
    · rcases oc with _ | chain
      · rw [hb] at hrun
        exact absurd hrun (by simp)
      · rw [hb] at hrun
        dsimp only at hrun
        have h1 := Option.some.inj hrun
        have hres1 : res.1 =
            (ents.filter (fun e => e.meta.node.isNone) ++
              (autoLayout g chain 8 8 seed).1) ++
            (planBeltsState g
              (ents.filter (fun e => e.meta.node.isNone) ++
                (autoLayout g chain 8 8 seed).1)
              chain (autoLayout g chain 8 8 seed).2).extras :=
          (congrArg Prod.fst h1).symm
        refine ⟨ents.filter (fun e => e.meta.node.isNone),
          (autoLayout g chain 8 8 seed).1,
          (planBeltsState g
            (ents.filter (fun e => e.meta.node.isNone) ++
              (autoLayout g chain 8 8 seed).1)
            chain (autoLayout g chain 8 8 seed).2).extras,
          hres1, rfl, ?_, ?_⟩
        · obtain ⟨hsepP, hintP⟩ := autoLayout_sep g chain 8 8 seed
          have hdimsP := autoLayout_dims g chain 8 8 seed
          intro i j hi hj hij
          rcases hsepP j hj with hx | hx
          · right
            have hiT : i < ((autoLayout g chain 8 8 seed).1.take j).length := by
              rw [List.length_take]
              omega
            have hgT : ((autoLayout g chain 8 8 seed).1.take j)[i] =
                (autoLayout g chain 8 8 seed).1[i] :=
              (List.getElem_take' (autoLayout g chain 8 8 seed).1 hi hij).symm
            have hmem : (autoLayout g chain 8 8 seed).1[i] ∈
                (autoLayout g chain 8 8 seed).1.take j := by
              rw [← hgT]
              exact List.getElem_mem hiT
            obtain ⟨hxi, hyi⟩ := hintP _ (List.getElem_mem hi)
            exact mutual_sep hxi hyi hx.2.1 hx.2.2
              (hdimsP _ (List.getElem_mem hi)) (hdimsP _ (List.getElem_mem hj))
              (PlacedFree_sep hx hmem)
          · exact Or.inl hx
        · have hP := planBeltsState_sep g
            (ents.filter (fun e => e.meta.node.isNone) ++
              (autoLayout g chain 8 8 seed).1)
            chain (autoLayout g chain 8 8 seed).2
          have hdimsE := planBeltsState_dims g
            (ents.filter (fun e => e.meta.node.isNone) ++
              (autoLayout g chain 8 8 seed).1)
            chain (autoLayout g chain 8 8 seed).2
          obtain ⟨-, hintP⟩ := autoLayout_sep g chain 8 8 seed
          have hdimsP := autoLayout_dims g chain 8 8 seed
          intro j hj
          rcases hP.2 j hj with hx | hx
          on_goal 2 => exact Or.inl hx
          · right
            refine ⟨?_, ?_, ?_⟩
            · intro e he
              exact PlacedFree_sep hx he
            · intro i hi
              obtain ⟨hxi, hyi⟩ := hintP _ (List.getElem_mem hi)
              have hmem : (autoLayout g chain 8 8 seed).1[i] ∈
                  (ents.filter (fun e => e.meta.node.isNone) ++
                    (autoLayout g chain 8 8 seed).1) ++
                  (planBeltsState g
                    (ents.filter (fun e => e.meta.node.isNone) ++
                      (autoLayout g chain 8 8 seed).1)
                    chain (autoLayout g chain 8 8 seed).2).extras.take j :=
                List.mem_append_left _
                  (List.mem_append_right _ (List.getElem_mem hi))
              exact mutual_sep hxi hyi hx.2.1 hx.2.2
                (hdimsP _ (List.getElem_mem hi)) (hdimsE _ (List.getElem_mem hj))
                (PlacedFree_sep hx hmem)
            · intro i hi hij
              rcases hP.2 i hi with hxi | hxi
              on_goal 2 => exact Or.inl hxi
              · right
                have hiT : i < ((planBeltsState g
                    (ents.filter (fun e => e.meta.node.isNone) ++
                      (autoLayout g chain 8 8 seed).1)
                    chain (autoLayout g chain 8 8 seed).2).extras.take j).length := by
                  rw [List.length_take]
                  omega
                have hgT : ((planBeltsState g
                    (ents.filter (fun e => e.meta.node.isNone) ++
                      (autoLayout g chain 8 8 seed).1)
                    chain (autoLayout g chain 8 8 seed).2).extras.take j)[i] =
                    (planBeltsState g
                      (ents.filter (fun e => e.meta.node.isNone) ++
                        (autoLayout g chain 8 8 seed).1)
                      chain (autoLayout g chain 8 8 seed).2).extras[i] :=
                  (List.getElem_take' _ hi hij).symm
                have hmem : (planBeltsState g
                    (ents.filter (fun e => e.meta.node.isNone) ++
                      (autoLayout g chain 8 8 seed).1)
                    chain (autoLayout g chain 8 8 seed).2).extras[i] ∈
                    (ents.filter (fun e => e.meta.node.isNone) ++
                      (autoLayout g chain 8 8 seed).1) ++
                    (planBeltsState g
                      (ents.filter (fun e => e.meta.node.isNone) ++
                        (autoLayout g chain 8 8 seed).1)
                      chain (autoLayout g chain 8 8 seed).2).extras.take j := by
                  refine List.mem_append_right _ ?_
                  rw [← hgT]
                  exact List.getElem_mem hiT
                exact mutual_sep hxi.2.1 hxi.2.2 hx.2.1 hx.2.2
                  (hdimsE _ (List.getElem_mem hi)) (hdimsE _ (List.getElem_mem hj))
                  (PlacedFree_sep hx hmem)

/-- Witness for C5: the 60/min `catC5` run from an empty board places its
two smelters at `(8, 8)` and `(16, 8)` and the derived invariant applies to
them. -/
theorem layout_no_overlap_witness :
    runPlanner catC5 3 1 [] "Plate" 60 false 0 = some ([plateA, plateB], [], []) ∧
    (∃ kept placements extras : List PlacedEntity,
      ([plateA, plateB] : List PlacedEntity) = (kept ++ placements) ++ extras ∧
      kept = ([] : List PlacedEntity).filter (fun e => e.meta.node.isNone) ∧
      RunSepSpec 1 kept placements extras) :=
  ⟨rfl, layout_no_overlap catC5 3 1 [] "Plate" 60 false 0
    ([plateA, plateB], [], []) rfl⟩

/-- C5 counterexample: machine placement starts from an empty obstacle list
and ignores the pre-existing entities, so a run over a board holding a
manual smelter at `(8, 8)` places its machine exactly there — the bounded
search succeeds immediately (no exhaustion), yet the two margin-expanded
rectangles coincide. The original claim's only exception (an exhausted
search) does not cover this overlapping pair. -/
theorem layout_manual_overlap_counterexample :
    runPlanner catC5 3 1 [entManualOverlap] "Plate" 30 false 0 =
      some ([entManualOverlap, plateEnt], [], []) ∧
    (¬ SearchExhausted 1 [] plateEnt) ∧
    intersectsB (expandRect (rectOfEntity plateEnt) ENTITY_PADDING_M)
      (expandRect (rectOfEntity entManualOverlap) ENTITY_PADDING_M) = true := by
  refine ⟨rfl, ?_, by decide⟩
  unfold SearchExhausted
  decide

/-! ## C7: termination of the chain resolver -/

/-- Any recipe returned by `findRecipeByProduct` belongs to the catalog and
produces the requested item. -/
theorem findRecipeByProduct_mem {recipes : List Recipe} {name : String}
    {alt : Bool} {r : Recipe}
    (h : findRecipeByProduct recipes name alt = some r) :
    r ∈ recipes ∧ r.product.name = name := by
  have hmem : ∀ x : Recipe, x ∈ recipes.filter (fun q => q.product.name == name) →
      x ∈ recipes ∧ x.product.name = name := by
    intro x hx
    simpa using List.mem_filter.mp hx
  rcases hfil : recipes.filter (fun q => q.product.name == name) with _ | ⟨c0, cs⟩
  · simp [findRecipeByProduct, hfil] at h
  · have hc0 : c0 ∈ recipes.filter (fun q => q.product.name == name) := by
      rw [hfil]
      exact List.mem_cons_self c0 cs
    simp only [findRecipeByProduct, hfil, Option.some.injEq] at h
    rcases hfa : (c0 :: cs).find? (fun q => q.alt) with _ | a
    · rcases hfs : (c0 :: cs).find? (fun q => !q.alt) with _ | s
      · rw [hfa, hfs] at h
        cases alt <;> simp only [Bool.false_eq_true, if_false, if_true,
          Option.getD_none] at h <;> subst h <;> exact hmem c0 hc0
      · have hsf : s ∈ recipes.filter (fun q => q.product.name == name) := by
          rw [hfil]
          exact List.mem_of_find?_eq_some hfs
        rw [hfa, hfs] at h
        cases alt <;> simp only [Bool.false_eq_true, if_false, if_true,
          Option.getD_none, Option.getD_some] at h <;> subst h <;> exact hmem s hsf
    · have haf : a ∈ recipes.filter (fun q => q.product.name == name) := by
        rw [hfil]
        exact List.mem_of_find?_eq_some hfa
      rcases hfs : (c0 :: cs).find? (fun q => !q.alt) with _ | s
      · rw [hfa, hfs] at h
        cases alt <;> simp only [Bool.false_eq_true, if_false, if_true,
          Option.getD_none, Option.getD_some] at h <;> subst h <;> exact hmem a haf
      · have hsf : s ∈ recipes.filter (fun q => q.product.name == name) := by
          rw [hfil]
          exact List.mem_of_find?_eq_some hfs
        rw [hfa, hfs] at h
        cases alt
        · simp only [Bool.false_eq_true, if_false, Option.getD_some] at h
          subst h
          exact hmem s hsf
        · simp only [if_true, Option.getD_some] at h
          subst h
          exact hmem a haf

/-- `buildSlots` only consults `build` on craftable inputs, so a pointwise
more-defined `build` preserves any successful traversal. -/
theorem buildSlots_mono (recipes : List Recipe) (alt : Bool)
    (b b' : String → ℚ → Option (Option Node))
    (hb : ∀ nm rt v, b nm rt = some v → b' nm rt = some v) :
    ∀ (l : List (String × ℚ)) (s : List (String × ℚ × Option Node)),
      buildSlots recipes alt b l = some s → buildSlots recipes alt b' l = some s := by
  intro l
  induction l with
  | nil => intro s h; exact h
  | cons p rest ih =>
    intro s h
    obtain ⟨nm, rt⟩ := p
    simp only [buildSlots] at h ⊢
    rcases hf : findRecipeByProduct recipes nm alt with _ | r0
    · rw [hf] at h
      rcases hrest : buildSlots recipes alt b rest with _ | ss
      · rw [hrest] at h
        exact absurd h (by simp)
      · rw [hrest] at h
        rw [ih ss hrest]
        exact h
    · rw [hf] at h
      rcases hbv : b nm rt with _ | child
      · rw [hbv] at h
        exact absurd h (by simp)
      · rw [hbv] at h
        rw [hb nm rt child hbv]
        rcases hrest : buildSlots recipes alt b rest with _ | ss
        · rw [hrest] at h
          exact absurd h (by simp)
        · rw [hrest] at h
          rw [ih ss hrest]
          exact h

/-- `buildSlots` succeeds as soon as `build` answers on every craftable
input of the list. -/
theorem buildSlots_isSome (recipes : List Recipe) (alt : Bool)
    (b : String → ℚ → Option (Option Node)) :
    ∀ l : List (String × ℚ),
      (∀ p ∈ l, (findRecipeByProduct recipes p.1 alt).isSome = true →
        (b p.1 p.2).isSome = true) →
      (buildSlots recipes alt b l).isSome = true := by
  intro l
  induction l with
  | nil => intro _; rfl
  | cons p rest ih =>
    intro hall
    obtain ⟨nm, rt⟩ := p
    have hrest := ih (fun q hq hq2 => hall q (List.mem_cons_of_mem _ hq) hq2)
    simp only [buildSlots]
    rcases hf : findRecipeByProduct recipes nm alt with _ | r0
    · rcases hrest2 : buildSlots recipes alt b rest with _ | ss
      · rw [hrest2] at hrest
        exact absurd hrest (by simp)
      · rfl
    · have hb0 : (b nm rt).isSome = true :=
        hall (nm, rt) (List.mem_cons_self _ _) (by simp [hf])
      rcases hbv : b nm rt with _ | child
      · rw [hbv] at hb0
        exact absurd hb0 (by simp)
      · rcases hrest2 : buildSlots recipes alt b rest with _ | ss
        · rw [hrest2] at hrest
          exact absurd hrest (by simp)
        · rfl

/-- `buildSlots` fails when some craftable input's recursive build fails. -/
theorem buildSlots_eq_none (recipes : List Recipe) (alt : Bool)
    (b : String → ℚ → Option (Option Node)) :
    ∀ l : List (String × ℚ),
      (∃ p ∈ l, (findRecipeByProduct recipes p.1 alt).isSome = true ∧
        b p.1 p.2 = none) →
      buildSlots recipes alt b l = none := by
  intro l
  induction l with
  | nil =>
    rintro ⟨p, hp, _⟩
    exact absurd hp (List.not_mem_nil p)
  | cons q rest ih =>
    rintro ⟨p, hp, hps, hpb⟩
    obtain ⟨nm, rt⟩ := q
    simp only [buildSlots]
    rcases List.mem_cons.mp hp with rfl | hp'
    · dsimp only at hps hpb
      rcases hf : findRecipeByProduct recipes nm alt with _ | r0
      · rw [hf] at hps
        exact absurd hps (by simp)
      · rw [hpb]
    · have hrest := ih ⟨p, hp', hps, hpb⟩
      rcases hf : findRecipeByProduct recipes nm alt with _ | r0
      · rw [hrest]
      · rcases hbv : b nm rt with _ | child
        · rfl
        · rw [hrest]

/-- Fuel monotonicity: once `buildChainF` answers at some fuel, every
larger fuel gives the same answer. -/
theorem buildChainF_mono (recipes : List Recipe) (alt : Bool) :
    ∀ (m : ℕ) (item : String) (rate : ℚ) (v : Option Node),
      buildChainF recipes alt m item rate = some v →
      ∀ k, m ≤ k → buildChainF recipes alt k item rate = some v := by
  intro m
  induction m with
  | zero =>
    intro item rate v h
    exact absurd h (by simp [buildChainF])
  | succ n ih =>
    intro item rate v h k hk
    obtain ⟨k', rfl⟩ : ∃ k', k = k' + 1 := ⟨k - 1, by omega⟩
    rw [buildChainF_succ] at h
    rw [buildChainF_succ]
    rcases hf : findRecipeByProduct recipes item alt with _ | r
    · rw [hf] at h
      exact h
    · rw [hf] at h
      dsimp only at h ⊢
      rcases hsl : buildSlots recipes alt (buildChainF recipes alt n)
          (r.inputs.map (fun inp => (inp.name, rate * inp.rate / r.product.rate))) with _ | slots
      · rw [hsl] at h
        exact absurd h (by simp)
      · rw [hsl] at h
        have hsl' := buildSlots_mono recipes alt (buildChainF recipes alt n)
          (buildChainF recipes alt k')
          (fun nm rt w hw => ih nm rt w hw k' (by omega)) _ _ hsl
        rw [hsl']
        exact h

/-- A single fuel bound dominating a finite family of successful builds. -/
theorem buildChainF_common_fuel (recipes : List Recipe) (alt : Bool) :
    ∀ l : List (String × ℚ),
      (∀ p ∈ l, ∃ n, (buildChainF recipes alt n p.1 p.2).isSome = true) →
      ∃ N, ∀ p ∈ l, (buildChainF recipes alt N p.1 p.2).isSome = true := by
  intro l
  induction l with
  | nil =>
    intro _
    exact ⟨0, by simp⟩
  | cons q rest ih =>
    intro hall
    obtain ⟨N1, hN1⟩ := hall q (List.mem_cons_self _ _)
    obtain ⟨N2, hN2⟩ := ih (fun p hp => hall p (List.mem_cons_of_mem _ hp))
    refine ⟨max N1 N2, ?_⟩
    intro p hp
    rcases List.mem_cons.mp hp with rfl | hp'
    · obtain ⟨v, hv⟩ := Option.isSome_iff_exists.mp hN1
      rw [buildChainF_mono recipes alt N1 p.1 p.2 v hv (max N1 N2) (le_max_left _ _)]
      rfl
    · obtain ⟨v, hv⟩ := Option.isSome_iff_exists.mp (hN2 p hp')
      rw [buildChainF_mono recipes alt N2 p.1 p.2 v hv (max N1 N2) (le_max_right _ _)]
      rfl

/-- On a craftable item `buildChainF` never returns the source's `null`:
it either runs out of fuel or builds a node. -/
theorem buildChainF_craft_ne_some_none (recipes : List Recipe) (alt : Bool)
    (fuel : ℕ) (item : String) (rate : ℚ) (r : Recipe)
    (hf : findRecipeByProduct recipes item alt = some r) :
    buildChainF recipes alt fuel item rate ≠ some none := by
  cases fuel with
  | zero => simp [buildChainF]
  | succ n =>
    rw [buildChainF_succ, hf]
    dsimp only
    rcases hsl : buildSlots recipes alt (buildChainF recipes alt n)
        (r.inputs.map (fun inp => (inp.name, rate * inp.rate / r.product.rate))) with _ | slots
    · simp [hsl]
    · simp [hsl]

/-- In a successful `buildSlots` traversal driven by `buildChainF`, a slot
carries a child exactly when its item is craftable. -/
theorem buildSlots_slot_iff (recipes : List Recipe) (alt : Bool) (fuel : ℕ) :
    ∀ (l : List (String × ℚ)) (slots : List (String × ℚ × Option Node)),
      buildSlots recipes alt (buildChainF recipes alt fuel) l = some slots →
      ∀ slot ∈ slots,
        (slot.2.2.isSome = true ↔ (findRecipeByProduct recipes slot.1 alt).isSome = true) := by
  intro l
  induction l with
  | nil =>
    intro slots h slot hslot
    simp only [buildSlots, Option.some.injEq] at h
    subst h
    exact absurd hslot (List.not_mem_nil slot)
  | cons q rest ih =>
    intro slots h slot hslot
    obtain ⟨nm, rt⟩ := q
    simp only [buildSlots] at h
    rcases hf : findRecipeByProduct recipes nm alt with _ | r
    · rw [hf] at h
      rcases hrest : buildSlots recipes alt (buildChainF recipes alt fuel) rest with _ | ss
      · rw [hrest] at h
        exact absurd h (by simp)
      · rw [hrest] at h
        simp only [Option.some.injEq] at h
        subst h
        rcases List.mem_cons.mp hslot with rfl | hslot'
        · constructor
          · intro habs
            simp at habs
          · intro habs
            have habs2 : (findRecipeByProduct recipes nm alt).isSome = true := habs
            rw [hf] at habs2
            exact absurd habs2 (by simp)
        · exact ih ss hrest slot hslot'
    · rw [hf] at h
      rcases hbv : buildChainF recipes alt fuel nm rt with _ | child
      · rw [hbv] at h
        exact absurd h (by simp)
      · rw [hbv] at h
        rcases hrest : buildSlots recipes alt (buildChainF recipes alt fuel) rest with _ | ss
        · rw [hrest] at h
          exact absurd h (by simp)
        · rw [hrest] at h
          simp only [Option.some.injEq] at h
          subst h
          rcases List.mem_cons.mp hslot with rfl | hslot'
          · have hcn : child ≠ none := by
              intro hc
              subst hc
              exact buildChainF_craft_ne_some_none recipes alt fuel nm rt r hf hbv
            have hchild : child.isSome = true := by
              rcases child with _ | node
              · exact absurd rfl hcn
              · rfl
            constructor
            · intro _
              show (findRecipeByProduct recipes nm alt).isSome = true
              rw [hf]
              rfl
            · intro _
              exact hchild
          · exact ih ss hrest slot hslot'

/-- C7: termination of `ChainResolver.build`. (i) Whenever the
item-dependency relation `depRel` of the catalog is well-founded — in
particular on every acyclic catalog — the recursion terminates: for every
item and rate some fuel makes `buildChainF` answer. (ii) Recursion bottoms
out exactly at items with no recipe: such an item immediately yields the
source's `null` (`some none`) at any positive fuel, and (iii) in a built
node an input slot carries a child subtree exactly when a recipe exists for
that input. (iv) No cycle detection is performed: along an infinite
dependency chain — e.g. on a cyclic catalog — no fuel ever suffices, i.e.
the source recursion is unbounded. -/
theorem buildChain_termination (recipes : List Recipe) (alt : Bool) :
    (WellFounded (depRel recipes alt) →
      ∀ (item : String) (rate : ℚ),
        ∃ n, (buildChainF recipes alt n item rate).isSome = true) ∧
    (∀ (item : String) (rate : ℚ) (n : ℕ),
      findRecipeByProduct recipes item alt = none → 1 ≤ n →
      buildChainF recipes alt n item rate = some none) ∧
    (∀ (item : String) (rate : ℚ) (n : ℕ) (node : Node),
      buildChainF recipes alt n item rate = some (some node) →
      ∀ slot ∈ node.inputs,
        (slot.2.2.isSome = true ↔ (findRecipeByProduct recipes slot.1 alt).isSome = true)) ∧
    (∀ f : ℕ → String, (∀ k, depRel recipes alt (f (k + 1)) (f k)) →
      ∀ (rate : ℚ) (n : ℕ), buildChainF recipes alt n (f 0) rate = none) := by
  refine ⟨?_, ?_, ?_, ?_⟩
  · intro hwf item
    refine WellFounded.induction
      (C := fun it => ∀ rate : ℚ, ∃ n, (buildChainF recipes alt n it rate).isSome = true)
      hwf item ?_
    intro x ihx rate
    rcases hf : findRecipeByProduct recipes x alt with _ | r
    · exact ⟨1, by rw [buildChainF_succ, hf]; rfl⟩
    · have hall : ∀ p ∈ r.inputs.map (fun inp => (inp.name, rate * inp.rate / r.product.rate)),
          ∃ n, (buildChainF recipes alt n p.1 p.2).isSome = true := by
        intro p hp
        rcases hfc : findRecipeByProduct recipes p.1 alt with _ | rc
        · exact ⟨1, by rw [buildChainF_succ, hfc]; rfl⟩
        · have hdep : depRel recipes alt p.1 x := by
            refine ⟨r, hf, ?_, by rw [hfc]; rfl⟩
            obtain ⟨inp, hinp, heq⟩ := List.mem_map.mp hp
            exact ⟨inp, hinp, by rw [← heq]⟩
          exact ihx p.1 hdep p.2
      obtain ⟨N, hN⟩ := buildChainF_common_fuel recipes alt _ hall
      refine ⟨N + 1, ?_⟩
      rw [buildChainF_succ, hf]
      dsimp only
      have hslots := buildSlots_isSome recipes alt (buildChainF recipes alt N)
        (r.inputs.map (fun inp => (inp.name, rate * inp.rate / r.product.rate)))
        (fun p hp _ => hN p hp)
      rcases hsl : buildSlots recipes alt (buildChainF recipes alt N)
          (r.inputs.map (fun inp => (inp.name, rate * inp.rate / r.product.rate))) with _ | slots
      · rw [hsl] at hslots
        exact absurd hslots (by simp)
      · simp [hsl]
  · intro item rate n hf hn
    obtain ⟨m, rfl⟩ : ∃ m, n = m + 1 := ⟨n - 1, by omega⟩
    rw [buildChainF_succ, hf]
  · intro item rate n node h slot hslot
    cases n with
    | zero => exact absurd h (by simp [buildChainF])
    | succ m =>
      rw [buildChainF_succ] at h
      rcases hf : findRecipeByProduct recipes item alt with _ | r
      · rw [hf] at h
        simp at h
      · rw [hf] at h
        dsimp only at h
        rcases hsl : buildSlots recipes alt (buildChainF recipes alt m)
            (r.inputs.map (fun inp => (inp.name, rate * inp.rate / r.product.rate))) with _ | slots
        · rw [hsl] at h
          exact absurd h (by simp)
        · rw [hsl] at h
          simp only [Option.some.injEq] at h
          have hni : node.inputs = slots := by
            rw [← h]
            rfl
          rw [hni] at hslot
          exact buildSlots_slot_iff recipes alt m _ slots hsl slot hslot
  · have key : ∀ (n : ℕ) (f : ℕ → String),
        (∀ k, depRel recipes alt (f (k + 1)) (f k)) →
        ∀ rate : ℚ, buildChainF recipes alt n (f 0) rate = none := by
      intro n
      induction n with
      | zero =>
        intro f _ rate
        rfl
      | succ m ih =>
        intro f hchain rate
        obtain ⟨r, hf0, ⟨inp, hinp, hname⟩, hs1⟩ := hchain 0
        rw [buildChainF_succ, hf0]
        dsimp only
        have hmemi : (f 1, rate * inp.rate / r.product.rate) ∈
            r.inputs.map (fun i => (i.name, rate * i.rate / r.product.rate)) := by
          refine List.mem_map.mpr ⟨inp, hinp, ?_⟩
          rw [hname]
        have hnone : buildSlots recipes alt (buildChainF recipes alt m)
            (r.inputs.map (fun i => (i.name, rate * i.rate / r.product.rate))) = none := by
          refine buildSlots_eq_none recipes alt _ _
            ⟨(f 1, rate * inp.rate / r.product.rate), hmemi, ?_, ?_⟩
          · exact hs1
          · exact ih (fun k => f (k + 1)) (fun k => hchain (k + 1))
              (rate * inp.rate / r.product.rate)
        rw [hnone]
    intro f hchain rate n
    exact key n f hchain rate

/-- Witness for C7 at concrete catalogs: the acyclic `catC8` has a
well-founded dependency relation, so the resolver terminates on it; the
recipe-less `"Ore"` immediately yields the source's `null`; and on the
self-cyclic `catCyc` no fuel ever suffices for `"Loop"`. -/
theorem buildChain_termination_witness :
    (∃ n, (buildChainF catC8 false n "Target" 30).isSome = true) ∧
    buildChainF catC8 false 1 "Ore" 30 = some none ∧
    buildChainF catCyc false 5 "Loop" 10 = none := by
  have hchar : ∀ y x : String, depRel catC8 false y x → y = "ItemB" ∧ x = "Target" := by
    rintro y x ⟨r, hfind, ⟨inp, hinp, hname⟩, hy⟩
    obtain ⟨hr, hx⟩ := findRecipeByProduct_mem hfind
    have hr2 : r = rTargetC8 ∨ r = rInputC8 := by
      simpa [catC8] using hr
    rcases hr2 with rfl | rfl
    · have hinp2 : inp = (⟨"ItemB", 30⟩ : Ingredient) := List.mem_singleton.mp hinp
      rw [hinp2] at hname
      exact ⟨hname.symm, hx.symm⟩
    · have hinp2 : inp = (⟨"Ore", 30⟩ : Ingredient) := List.mem_singleton.mp hinp
      rw [hinp2] at hname
      rw [← hname] at hy
      exact absurd hy (by decide)
  have hwf : WellFounded (depRel catC8 false) := by
    constructor
    intro x
    constructor
    intro y hy
    have h1 := hchar y x hy
    constructor
    intro z hz
    have h2 := hchar z y hz
    have hcontra : ("ItemB" : String) = "Target" := by
      rw [← h1.1]
      exact h2.2
    exact absurd hcontra (by decide)
  refine ⟨(buildChain_termination catC8 false).1 hwf "Target" 30, ?_, ?_⟩
  · exact (buildChain_termination catC8 false).2.1 "Ore" 30 1 (by decide) (by decide)
  · exact (buildChain_termination catCyc false).2.2.2 (fun _ => "Loop")
      (fun k => ⟨⟨"rLoop", ⟨"Loop", 10⟩, [⟨"Loop", 10⟩], .smelter, false⟩, rfl,
        ⟨⟨"Loop", 10⟩, List.mem_singleton.mpr rfl, rfl⟩, rfl⟩) 10 5

/-! ## C9: direct-mode routing against the Manhattan distance -/

set_option maxRecDepth 8000 in
/-- C9 counterexample: the claim fails for off-grid ports. The A* runs on
an integer grid between the `Math.round`-snapped images of the ports, so
routing `(0,0) → (2, 3/2)` with no obstacles returns a 2-segment polyline
of total length `4` — the Manhattan distance of the snapped endpoints —
while the Manhattan distance of the ports themselves is `7/2`. -/
theorem route_manhattan_counterexample :
    (routeDirectionalWithBiasF 80 ⟨0, 0⟩ ⟨2, 3/2⟩ [] 0).map
        (fun l => (totalLen l, l.length)) = some (4, 2) ∧
    |(2 : ℚ) - 0| + |(3/2 : ℚ) - 0| ≠ 4 := by
  constructor
  · decide
  · decide

set_option maxRecDepth 8000 in
/-- C9 (amended): three no-obstacle routing scenarios between grid-aligned
ports — an L-shaped run `(0,0) → (5,3)` and straight horizontal and
vertical runs — each return at most 3 axis-aligned segments whose total
length equals the Manhattan distance between the two ports. -/
theorem route_manhattan_amended :
    ((routeDirectionalWithBiasF 80 ⟨0, 0⟩ ⟨5, 3⟩ [] 0).map
        (fun l => (totalLen l, l.length)) = some (|(5 : ℚ) - 0| + |(3 : ℚ) - 0|, 2) ∧
      2 ≤ 3) ∧
    ((routeDirectionalWithBiasF 80 ⟨0, 0⟩ ⟨6, 0⟩ [] 0).map
        (fun l => (totalLen l, l.length)) = some (|(6 : ℚ) - 0| + |(0 : ℚ) - 0|, 1) ∧
      1 ≤ 3) ∧
    ((routeDirectionalWithBiasF 80 ⟨0, 0⟩ ⟨0, 4⟩ [] 0).map
        (fun l => (totalLen l, l.length)) = some (|(0 : ℚ) - 0| + |(4 : ℚ) - 0|, 1) ∧
      1 ≤ 3) :=
  ⟨⟨by decide, by decide⟩, ⟨by decide, by decide⟩, ⟨by decide, by decide⟩⟩

end Planner
